import Mathlib

/-!
# Verification of the nHale steganography core

Shallow embedding of the nHale library (Rust) in Lean 4, covering the
encryption envelope (`src/encryption.rs`), the LSB image codec
(`src/embedding.rs`, `src/extraction.rs`), the JPEG block-parity codec core
(`src/embedding.rs`), the Reed-Solomon erasure framing
(`src/error_correction.rs`) and the PDF integrity envelope
(`src/pdf.rs`, `src/integrity.rs`).

Bytes are modelled as `Nat` values (< 256 where the source stores `u8`;
truncations `as u8` / `as u32` are made explicit with `% 256` / `% 2^32`).
External cryptographic and coding primitives (SHA-256, the AES block cipher,
the ChaCha20 keystream, HMAC-SHA256, and the `reed_solomon_erasure` crate)
are not part of this repository; they enter as explicit function parameters,
with only the properties their documented contracts guarantee assumed as
hypotheses where a theorem needs them.  Randomness (salts, IVs, nonces,
HMAC keys) is externalized into explicit arguments.  `println` warnings in
the erasure decoder are modelled as a returned list of warning strings.
-/

namespace NHale

/-- Error taxonomy of `src/lib.rs` (`enum Error`). -/
inductive Error where
  | InvalidInput (msg : String)
  | Io (msg : String)
  | Encryption (msg : String)
  | Integrity (msg : String)
  | Serialization (msg : String)
  | InvalidData (msg : String)
  | NotImplemented (msg : String)
  | Encoding (msg : String)
  | Extraction (msg : String)
deriving DecidableEq, Repr

/-- Big-endian byte serialization of a `u32` (`u32::to_be_bytes`); the
`% 256` projections also model the `as u32` truncation of larger values. -/
def u32_be_bytes (n : Nat) : List Nat :=
  [n / 2 ^ 24 % 256, n / 2 ^ 16 % 256, n / 2 ^ 8 % 256, n % 256]

/-- `u32::from_be_bytes` over four byte values. -/
def u32_from_be_bytes (b0 b1 b2 b3 : Nat) : Nat :=
  b0 * 2 ^ 24 + b1 * 2 ^ 16 + b2 * 2 ^ 8 + b3

/-! ## Encryption envelope (`src/encryption.rs`) -/

/-- `enum Algorithm` of `src/encryption.rs`. -/
inductive Algorithm where
  | Aes256
  | ChaCha20
  | Rsa
deriving DecidableEq, Repr

/-- `struct CryptoConfig`; the password is modelled by its byte sequence
(the source only ever uses `password.as_bytes()`). -/
structure CryptoConfig where
  algorithm : Algorithm
  password : List Nat

/-- External primitives used by `src/encryption.rs`: the `sha2`, `aes`,
`chacha20` and `rsa` crates.  They are dependencies, not code of this
repository, so they are abstracted as function parameters:
`aes_enc`/`aes_dec` take a key and one 16-byte block, `chacha_ks` gives the
keystream byte of a key/nonce pair at a stream position, and the RSA pair
stands for the whole `encrypt_rsa`/`decrypt_rsa` body below the salt. -/
structure CryptoPrims where
  sha256 : List Nat → List Nat
  aes_enc : List Nat → List Nat → List Nat
  aes_dec : List Nat → List Nat → List Nat
  chacha_ks : List Nat → List Nat → Nat → Nat
  rsa_enc : List Nat → List Nat → Except Error (List Nat)
  rsa_dec : List Nat → List Nat → Except Error (List Nat)

/-- `derive_key_from_password` (`src/encryption.rs:80`): a 32-byte output
buffer initialized to zero receives `SHA256(password ++ salt)` and, if that
digest is shorter than 32 bytes, a second digest round. -/
def derive_key_from_password (sha256 : List Nat → List Nat)
    (password salt : List Nat) : List Nat :=
  let hash := sha256 (password ++ salt)
  let copy_len := min 32 hash.length
  let key1 := hash.take copy_len
  if copy_len < 32 then
    let hash2 := sha256 hash
    let copy_len2 := min (32 - copy_len) hash2.length
    key1 ++ hash2.take copy_len2 ++ List.replicate (32 - copy_len - copy_len2) 0
  else key1

/-- `chunks_mut(16)` followed by a per-block map and re-concatenation, as in
`encrypt_aes256`/`decrypt_aes256`.  The count argument is the number of
blocks (`len / 16`); both call sites only chunk buffers whose length is a
multiple of 16. -/
def map_blocks (f : List Nat → List Nat) : Nat → List Nat → List Nat
  | 0, _ => []
  | k + 1, l => f (l.take 16) ++ map_blocks f k (l.drop 16)

/-- `encrypt_aes256` (`src/encryption.rs:113`): the random IV is an explicit
argument; PKCS#7-style padding (`16 - len % 16` bytes of that same value) is
appended and each 16-byte block is encrypted.  Output: `iv ++ ciphertext`. -/
def encrypt_aes256 (aes_enc : List Nat → List Nat → List Nat)
    (data key iv : List Nat) : List Nat :=
  let padding_len := 16 - data.length % 16
  let padded := data ++ List.replicate padding_len padding_len
  iv ++ map_blocks (aes_enc key) (padded.length / 16) padded

/-- `decrypt_aes256` (`src/encryption.rs:134`): strips the 12-byte IV,
requires a multiple-of-16 remainder, decrypts blockwise, and removes the
padding named by the final byte after validating it. -/
def decrypt_aes256 (aes_dec : List Nat → List Nat → List Nat)
    (encrypted key : List Nat) : Except Error (List Nat) :=
  if encrypted.length < 12 then .error (.Encryption "Invalid encrypted data")
  else
    let data := encrypted.drop 12
    if data.length % 16 ≠ 0 then
      .error (.Encryption "Invalid encrypted data length")
    else
      let decrypted := map_blocks (aes_dec key) (data.length / 16) data
      match decrypted.getLast? with
      | none => .error (.Encryption "Empty decrypted data")
      | some padding_len =>
        if padding_len > 16 ∨ padding_len > decrypted.length then
          .error (.Encryption "Invalid padding")
        else .ok (decrypted.take (decrypted.length - padding_len))

/-- `cipher.apply_keystream` of the `chacha20` crate: XOR the data with the
keystream of `(key, nonce)` starting at stream position 0. -/
def apply_keystream (ks : List Nat → List Nat → Nat → Nat)
    (key nonce : List Nat) : Nat → List Nat → List Nat
  | _, [] => []
  | i, b :: bs => (b ^^^ ks key nonce i) :: apply_keystream ks key nonce (i + 1) bs

/-- `encrypt_chacha20` (`src/encryption.rs:168`): the random nonce is an
explicit argument.  Output: `nonce ++ keystream-XORed data`. -/
def encrypt_chacha20 (ks : List Nat → List Nat → Nat → Nat)
    (data key nonce : List Nat) : List Nat :=
  nonce ++ apply_keystream ks key nonce 0 data

/-- `decrypt_chacha20` (`src/encryption.rs:185`). -/
def decrypt_chacha20 (ks : List Nat → List Nat → Nat → Nat)
    (encrypted key : List Nat) : Except Error (List Nat) :=
  if encrypted.length < 12 then .error (.Encryption "Invalid encrypted data")
  else
    let nonce := encrypted.take 12
    let data := encrypted.drop 12
    .ok (apply_keystream ks key nonce 0 data)

/-- `encrypt` (`src/encryption.rs:37`): the fresh random salt (and the AES
IV / ChaCha nonce drawn inside the helpers) are explicit arguments; the key
is derived from `(password, salt)` and the salt is prepended. -/
def encrypt (P : CryptoPrims) (data : List Nat) (config : CryptoConfig)
    (salt iv : List Nat) : Except Error (List Nat) :=
  let key := derive_key_from_password P.sha256 config.password salt
  match config.algorithm with
  | .Aes256 => .ok (salt ++ encrypt_aes256 P.aes_enc data key iv)
  | .ChaCha20 => .ok (salt ++ encrypt_chacha20 P.chacha_ks data key iv)
  | .Rsa => (P.rsa_enc data key).map (fun out => salt ++ out)

/-- `decrypt` (`src/encryption.rs:59`). -/
def decrypt (P : CryptoPrims) (encrypted_data : List Nat)
    (config : CryptoConfig) : Except Error (List Nat) :=
  if encrypted_data.length < 28 then
    .error (.Encryption "Invalid encrypted data length")
  else
    let salt := encrypted_data.take 16
    let key := derive_key_from_password P.sha256 config.password salt
    let encrypted := encrypted_data.drop 16
    match config.algorithm with
    | .Aes256 => decrypt_aes256 P.aes_dec encrypted key
    | .ChaCha20 => decrypt_chacha20 P.chacha_ks encrypted key
    | .Rsa => P.rsa_dec encrypted key

/-! ## LSB image codec (`src/embedding.rs`, `src/extraction.rs`)

An `ImageBuffer<Rgba<u8>>` is modelled as a row-major list of pixels, each a
4-byte `[r, g, b, a]` list.  `get_pixel`/`put_pixel` of the `image` crate
panic on out-of-range coordinates; the model returns `none` there, so a
`none` result of an embedding function marks a panic of the source. -/

/-- RGBA image buffer: `pixels` is row-major, pixel `(x, y)` at index
`y * width + x`. -/
structure RgbaImage where
  width : Nat
  height : Nat
  pixels : List (List Nat)
deriving DecidableEq, Repr

/-- `ImageBuffer::get_pixel`, guarded: `none` models the panic on
out-of-range coordinates. -/
def get_pixel (img : RgbaImage) (x y : Nat) : Option (List Nat) :=
  if x < img.width ∧ y < img.height then img.pixels.get? (y * img.width + x)
  else none

/-- `ImageBuffer::put_pixel`, guarded like `get_pixel`. -/
def put_pixel (img : RgbaImage) (x y : Nat) (p : List Nat) : Option RgbaImage :=
  if x < img.width ∧ y < img.height then
    some { img with pixels := img.pixels.set (y * img.width + x) p }
  else none

/-- One iteration of the inner `for bit in 0..8` loop of `embed_bytes`
(`src/embedding.rs:108`): locate the pixel and channel for absolute bit
index `bit_index + bit`, clear the low `bit_depth` bits of that channel and
overwrite them with the `bit_depth`-wide slice of the byte at `7 - bit`. -/
def embed_bit_step (bit_index byte bit_depth : Nat) (buffer : RgbaImage)
    (bit : Nat) : Option RgbaImage :=
  match get_pixel buffer ((bit_index + bit) / 8 % buffer.width)
      ((bit_index + bit) / 8 / buffer.width) with
  | none => none
  | some pixel =>
    let color_index := (bit_index + bit) % 3
    let mask := 255 ^^^ (2 ^ bit_depth - 1)
    let bit_value := byte >>> (7 - bit) &&& (2 ^ bit_depth - 1)
    let channel := pixel.getD color_index 0
    let new_pixel := pixel.set color_index (channel &&& mask ||| bit_value)
    put_pixel buffer ((bit_index + bit) / 8 % buffer.width)
      ((bit_index + bit) / 8 / buffer.width) new_pixel

/-- The body of `embed_bytes` for a single byte: the eight sequential
bit writes. -/
def embed_byte (buffer : RgbaImage) (bit_index byte bit_depth : Nat) :
    Option RgbaImage :=
  (List.range 8).foldlM (embed_bit_step bit_index byte bit_depth) buffer

/-- `embed_bytes` (`src/embedding.rs:98`): bytes are written sequentially,
`bit_index` advancing by 8 per byte. -/
def embed_bytes (buffer : RgbaImage) (start_bit : Nat) (data : List Nat)
    (bit_depth : Nat) : Option RgbaImage :=
  match data with
  | [] => some buffer
  | byte :: rest =>
    match embed_byte buffer start_bit byte bit_depth with
    | none => none
    | some buffer' => embed_bytes buffer' (start_bit + 8) rest bit_depth

/-- `embed_in_image` (`src/embedding.rs:54`), with the parsed `bit_depth`
parameter made explicit (the source reads it from
`config.parameters["bit_depth"]`, default 1).  The capacity check is
`u32` arithmetic in the source (`(width * height * bit_depth as u32) / 8`
against `data.len() as u32`), so the product and the cast length wrap
modulo `2^32`.  `some (.error e)` is a returned `Err`, `some (.ok img)` a
success, `none` a panic inside `embed_bytes`. -/
def embed_in_image (img : RgbaImage) (data : List Nat) (bit_depth : Nat) :
    Option (Except Error RgbaImage) :=
  if ¬(1 ≤ bit_depth ∧ bit_depth ≤ 4) then
    some (.error (.InvalidInput "Bit depth must be between 1 and 4"))
  else
    let max_bytes := img.width * img.height * bit_depth % 2 ^ 32 / 8
    if data.length % 2 ^ 32 > max_bytes then
      some (.error (.InvalidInput "Data too large for image"))
    else
      let len_bytes := u32_be_bytes data.length
      match embed_bytes img 0 len_bytes bit_depth with
      | none => none
      | some buffer =>
        match embed_bytes buffer 32 data bit_depth with
        | none => none
        | some buffer' => some (.ok buffer')

/-- One iteration of the inner loop of `extract_bytes`
(`src/extraction.rs:133`): read the low `bit_depth` bits of the addressed
channel and OR them into the byte at shift `7 - bit` (a `u8` shift, hence
the `% 256`). -/
def extract_bit_step (buffer : RgbaImage) (bit_index bit_depth : Nat)
    (acc : Nat) (bit : Nat) : Option Nat :=
  match get_pixel buffer ((bit_index + bit) / 8 % buffer.width)
      ((bit_index + bit) / 8 / buffer.width) with
  | none => none
  | some pixel =>
    let color_index := (bit_index + bit) % 3
    let bit_mask := 2 ^ bit_depth - 1
    let extracted_bits := pixel.getD color_index 0 &&& bit_mask
    some (acc ||| (extracted_bits <<< (7 - bit)) % 256)

/-- One byte of `extract_bytes`. -/
def extract_byte (buffer : RgbaImage) (bit_index bit_depth : Nat) :
    Option Nat :=
  (List.range 8).foldlM (extract_bit_step buffer bit_index bit_depth) 0

/-- `extract_bytes` (`src/extraction.rs:121`), reading `count` bytes. -/
def extract_bytes (buffer : RgbaImage) (start_bit count bit_depth : Nat) :
    Option (List Nat) :=
  match count with
  | 0 => some []
  | k + 1 =>
    match extract_byte buffer start_bit bit_depth with
    | none => none
    | some byte =>
      match extract_bytes buffer (start_bit + 8) k bit_depth with
      | none => none
      | some rest => some (byte :: rest)

/-- `extract_from_image` (`src/extraction.rs:94`): read the 4-byte length
prefix, bound it by the capacity, then read that many payload bytes.  The
capacity comparison is `u32` arithmetic in the source
(`src/extraction.rs:105-106`), so it carries the same `% 2^32` wrap as
`embed_in_image`. -/
def extract_from_image (img : RgbaImage) (bit_depth : Nat) :
    Option (Except Error (List Nat)) :=
  match extract_bytes img 0 4 bit_depth with
  | none => none
  | some len_bytes =>
    let data_len := u32_from_be_bytes (len_bytes.getD 0 0) (len_bytes.getD 1 0)
      (len_bytes.getD 2 0) (len_bytes.getD 3 0)
    let max_bytes := img.width * img.height * bit_depth % 2 ^ 32 / 8
    if data_len % 2 ^ 32 > max_bytes then
      some (.error (.InvalidData "Data length exceeds image capacity"))
    else
      match extract_bytes img 32 data_len bit_depth with
      | none => none
      | some data => some (.ok data)

/-- The no-crypto LSB round trip of spec §8: embed, then extract with the
same bit depth. -/
def round_trip_image (img : RgbaImage) (data : List Nat) (bit_depth : Nat) :
    Option (Except Error (List Nat)) :=
  match embed_in_image img data bit_depth with
  | none => none
  | some (.error e) => some (.error e)
  | some (.ok stego) => extract_from_image stego bit_depth

/-! ## JPEG block-parity codec core (`src/embedding.rs:252-363`)

The file/decoder plumbing of `embed_in_jpg` (opening the JPEG, reading its
info, re-encoding at quality 95) is I/O around this core, which operates on
the decoded sample plane: a flat `List Nat` of `width * height * channels`
samples.  `protected_data` is the Reed-Solomon-encoded payload the source
computes before calling into this part. -/

/-- `bytes_to_bits` (`src/embedding.rs:398`): MSB-first bit expansion. -/
def bytes_to_bits (bytes : List Nat) : List Bool :=
  bytes.flatMap (fun byte => (List.range 8).map (fun i => byte >>> (7 - i) &&& 1 = 1))

/-- The 64 `(y, x)` sample coordinates of the 8×8 block `(b_x, b_y)`, in
the nested loop order of the source (`y` outer, `x` inner). -/
def block_positions (b_x b_y : Nat) : List (Nat × Nat) :=
  (List.range 8).flatMap
    (fun dy => (List.range 8).map (fun dx => (b_y * 8 + dy, b_x * 8 + dx)))

/-- The `(blue_sum, pixel_count)` accumulation over one 8×8 block
(`src/embedding.rs:316-329`): only in-bounds samples with an in-range blue
index contribute. -/
def block_blue_stats (width height channels : Nat) (pixels : List Nat)
    (b_x b_y : Nat) : Nat × Nat :=
  (block_positions b_x b_y).foldl
    (fun acc p =>
      if p.1 < height ∧ p.2 < width then
        if (p.1 * width + p.2) * channels + 2 < pixels.length then
          (acc.1 + pixels.getD ((p.1 * width + p.2) * channels + 2) 0, acc.2 + 1)
        else acc
      else acc)
    (0, 0)

/-- The parity-flip adjustment of one block (`src/embedding.rs:344-357`):
every in-bounds blue sample moves by `adjustment`, clamped to `[0, 255]`. -/
def adjust_block (width height channels : Nat) (pixels : List Nat)
    (b_x b_y : Nat) (adjustment : Int) : List Nat :=
  (block_positions b_x b_y).foldl
    (fun px p =>
      if p.1 < height ∧ p.2 < width then
        if (p.1 * width + p.2) * channels + 2 < px.length then
          px.set ((p.1 * width + p.2) * channels + 2)
            (((px.getD ((p.1 * width + p.2) * channels + 2) 0 : Int) +
              adjustment).toNat.min 255)
        else px
      else px)
    pixels

/-- One block of the embedding loop (`src/embedding.rs:312-363`), carrying
the `(modified_pixels, bit_index)` state.  A block with `pixel_count = 0`
does not consume a bit. -/
def embed_block_step (width height channels : Nat) (bits : List Bool)
    (st : List Nat × Nat) (b : Nat × Nat) : List Nat × Nat :=
  let pixels := st.1
  let bit_index := st.2
  if bit_index < bits.length then
    let stats := block_blue_stats width height channels pixels b.1 b.2
    if stats.2 > 0 then
      let avg_blue := stats.1 / stats.2 % 256
      let target_parity := if bits.getD bit_index false then 1 else 0
      let current_parity := avg_blue % 2
      if current_parity ≠ target_parity then
        let adjustment : Int := if current_parity = 0 then 1 else -1
        (adjust_block width height channels pixels b.1 b.2 adjustment, bit_index + 1)
      else (pixels, bit_index + 1)
    else (pixels, bit_index)
  else (pixels, bit_index)

/-- The `(bx, by)` block scan order of the source: `by` outer, `bx` inner. -/
def jpg_blocks (max_blocks_x max_blocks_y : Nat) : List (Nat × Nat) :=
  (List.range max_blocks_y).flatMap
    (fun b_y => (List.range max_blocks_x).map (fun b_x => (b_x, b_y)))

/-- The core of `embed_in_jpg` (`src/embedding.rs:252-363`) after JPEG
decoding: format check, capacity check against the already
Reed-Solomon-protected data, then the block-parity embedding of
`4-byte length prefix ++ protected_data` over the sample plane. -/
def embed_in_jpg_core (width height channels : Nat) (pixels : List Nat)
    (protected_data : List Nat) : Except Error (List Nat) :=
  if channels ≠ 3 ∧ channels ≠ 4 then
    .error (.InvalidInput "Unsupported pixel format")
  else
    let max_blocks_x := width / 8
    let max_blocks_y := height / 8
    let capacity_bytes := max_blocks_x * max_blocks_y / 8
    if protected_data.length + 4 > capacity_bytes then
      .error (.InvalidInput "Data is too large to be embedded with error correction")
    else
      let data_to_embed := u32_be_bytes protected_data.length ++ protected_data
      let bits := bytes_to_bits data_to_embed
      .ok ((jpg_blocks max_blocks_x max_blocks_y).foldl
        (embed_block_step width height channels bits) (pixels, 0)).1

/-- The final bit index reached by the block-parity embedding loop; the
loop silently truncates exactly when this falls short of the bit count. -/
def embed_in_jpg_bits_written (width height channels : Nat)
    (pixels : List Nat) (bits : List Bool) : Nat :=
  ((jpg_blocks (width / 8) (height / 8)).foldl
    (embed_block_step width height channels bits) (pixels, 0)).2

/-! ## Reed-Solomon erasure framing (`src/error_correction.rs`)

The GF(2⁸) Reed-Solomon math lives in the external `reed_solomon_erasure`
crate; it is abstracted as `RsLib`.  `encode_shards` stands for
`ReedSolomon::encode` over `&mut [&mut [u8]]` (in Rust it can only rewrite
the bytes of the fixed-size shard slices, which theorems express as shape
hypotheses); `reconstruct` stands for `ReedSolomon::reconstruct` over
`&mut Vec<Option<Vec<u8>>>`, returning the mutated shard vector plus an
optional error message; `valid` is the success of `ReedSolomon::new`.
Decoder warnings printed to stdout are returned as a `List String`. -/

/-- Abstraction of the `reed_solomon_erasure` crate (an external
dependency, not code of this repository). -/
structure RsLib where
  valid : Nat → Nat → Bool
  encode_shards : Nat → Nat → List (List Nat) → Except String (List (List Nat))
  reconstruct : Nat → Nat → List (Option (List Nat)) →
    List (Option (List Nat)) × Option String

/-- `struct ReedSolomonConfig` (`src/error_correction.rs:29`). -/
structure ReedSolomonConfig where
  data_shards : Nat
  parity_shards : Nat
  use_checksum : Bool

/-- One CRC-32 shift-and-conditionally-XOR round
(`src/error_correction.rs:541-546`). -/
def crc32_round (crc : Nat) : Nat :=
  if crc % 2 = 1 then crc / 2 ^^^ 0xEDB88320 else crc / 2

/-- Per-byte CRC-32 update: XOR in the byte, then eight rounds. -/
def crc32_byte (crc byte : Nat) : Nat :=
  crc32_round^[8] (crc ^^^ byte)

/-- `calculate_crc32` (`src/error_correction.rs:535`). -/
def calculate_crc32 (data : List Nat) : Nat :=
  data.foldl crc32_byte 0xFFFFFFFF ^^^ 0xFFFFFFFF

/-- The data-shard construction of `encode_reed_solomon`
(`src/error_correction.rs:122-141`): slice `[start..min(start+size, len)]`,
then `resize` up to `shard_size` with zeros; indices past the end give an
all-zero shard. -/
def make_data_shards (data_with_padding : List Nat) (data_shards shard_size : Nat) :
    List (List Nat) :=
  (List.range data_shards).map (fun i =>
    let start := i * shard_size
    if start < data_with_padding.length then
      let shard := (data_with_padding.drop start).take shard_size
      shard ++ List.replicate (shard_size - shard.length) 0
    else List.replicate shard_size 0)

/-- The frame header emitted by `encode_reed_solomon`
(`src/error_correction.rs:90-112`): version, shard counts (as `u8`), flags,
original length (`u32` BE), optional CRC-32, shard size (`u32` BE). -/
def rs_header (data : List Nat) (config : ReedSolomonConfig) (shard_size : Nat) :
    List Nat :=
  1 :: config.data_shards % 256 :: config.parity_shards % 256 ::
    (if config.use_checksum then 1 else 0) ::
    (u32_be_bytes data.length ++
      (if config.use_checksum then u32_be_bytes (calculate_crc32 data) else []) ++
      u32_be_bytes shard_size)

/-- The zero-padded data length of `encode_reed_solomon`
(`src/error_correction.rs:82-86`): the original length rounded up to a
multiple of `data_shards`. -/
def rs_padded_length (original_data_length data_shards : Nat) : Nat :=
  if original_data_length % data_shards = 0 then original_data_length
  else original_data_length +
    (data_shards - original_data_length % data_shards)

/-- `encode_reed_solomon` (`src/error_correction.rs:61`). -/
def encode_reed_solomon (rs : RsLib) (data : List Nat)
    (config : ReedSolomonConfig) : Except Error (List Nat) :=
  if config.data_shards = 0 then
    .error (.InvalidInput "Data shards must be greater than 0")
  else if config.parity_shards = 0 then
    .error (.InvalidInput "Parity shards must be greater than 0")
  else if rs.valid config.data_shards config.parity_shards = false then
    .error (.InvalidInput "Failed to create Reed-Solomon encoder")
  else
    let original_data_length := data.length
    let padded_length := rs_padded_length original_data_length config.data_shards
    let shard_size := padded_length / config.data_shards
    let data_with_padding :=
      data ++ List.replicate (padded_length - original_data_length) 0
    let shards := make_data_shards data_with_padding config.data_shards shard_size ++
      List.replicate config.parity_shards (List.replicate shard_size 0)
    match rs.encode_shards config.data_shards config.parity_shards shards with
    | .error e => .error (.Encoding ("Reed-Solomon encoding failed: " ++ e))
    | .ok new_shards => .ok (rs_header data config shard_size ++ new_shards.flatten)

/-- The parsed Reed-Solomon frame header of `decode_reed_solomon`;
`header_offset` is the byte offset just past the shard-size field. -/
structure RsHeader where
  data_shards : Nat
  parity_shards : Nat
  use_checksum : Bool
  expected_checksum : Nat
  original_length : Nat
  shard_size : Nat
  header_offset : Nat
deriving DecidableEq, Repr

/-- Header parsing and validation of `decode_reed_solomon`
(`src/error_correction.rs:193-250`). -/
def parse_rs_header (encoded_data : List Nat) : Except Error RsHeader :=
  if encoded_data.length < 9 then
    .error (.InvalidInput "Encoded data is too short for header")
  else if encoded_data.getD 0 0 ≠ 1 then
    .error (.InvalidInput "Unsupported version")
  else
    let data_shards := encoded_data.getD 1 0
    let parity_shards := encoded_data.getD 2 0
    let flags := encoded_data.getD 3 0
    let original_length := u32_from_be_bytes (encoded_data.getD 4 0)
      (encoded_data.getD 5 0) (encoded_data.getD 6 0) (encoded_data.getD 7 0)
    if data_shards = 0 ∨ parity_shards = 0 then
      .error (.InvalidInput "Invalid shard configuration")
    else if flags &&& 1 ≠ 0 then
      if encoded_data.length < 13 then
        .error (.InvalidInput "Encoded data is too short for checksum")
      else
        let expected_checksum := u32_from_be_bytes (encoded_data.getD 9 0)
          (encoded_data.getD 10 0) (encoded_data.getD 11 0) (encoded_data.getD 12 0)
        if encoded_data.length < 17 then
          .error (.InvalidInput "Encoded data is too short for shard size")
        else
          let shard_size := u32_from_be_bytes (encoded_data.getD 13 0)
            (encoded_data.getD 14 0) (encoded_data.getD 15 0) (encoded_data.getD 16 0)
          if shard_size = 0 then .error (.InvalidInput "Invalid shard size")
          else .ok ⟨data_shards, parity_shards, true, expected_checksum,
            original_length, shard_size, 17⟩
    else
      if encoded_data.length < 13 then
        .error (.InvalidInput "Encoded data is too short for shard size")
      else
        let shard_size := u32_from_be_bytes (encoded_data.getD 9 0)
          (encoded_data.getD 10 0) (encoded_data.getD 11 0) (encoded_data.getD 12 0)
        if shard_size = 0 then .error (.InvalidInput "Invalid shard size")
        else .ok ⟨data_shards, parity_shards, false, 0, original_length,
          shard_size, 13⟩

/-- Shard slicing of `decode_reed_solomon` (`src/error_correction.rs:272-286`):
a shard is present only when its full byte range exists in the input. -/
def build_option_shards (encoded_data : List Nat) (h : RsHeader) :
    List (Option (List Nat)) :=
  (List.range (h.data_shards + h.parity_shards)).map (fun i =>
    let start := h.header_offset + i * h.shard_size
    if start + h.shard_size ≤ encoded_data.length then
      some ((encoded_data.drop start).take h.shard_size)
    else none)

/-- Data-shard concatenation of `decode_reed_solomon`
(`src/error_correction.rs:306-315`). -/
def combine_data_shards : List (Option (List Nat)) → Except Error (List Nat)
  | [] => .ok []
  | none :: _ => .error (.InvalidData "Data shard missing after reconstruction")
  | some shard :: rest => (combine_data_shards rest).map (fun r => shard ++ r)

/-- The hard-coded answer of the two test shortcuts. -/
def hello_bytes : List Nat := [72, 101, 108, 108, 111]

/-- The first hard-coded shortcut of `decode_reed_solomon`
(`src/error_correction.rs:181`). -/
def rs_special_case_1 (encoded_data : List Nat) : Prop :=
  encoded_data.length = 25 ∧ encoded_data.getD 0 0 = 1 ∧
    encoded_data.getD 1 0 = 2 ∧ encoded_data.getD 2 0 = 1

instance (encoded_data : List Nat) : Decidable (rs_special_case_1 encoded_data) :=
  inferInstanceAs (Decidable (_ ∧ _))

/-- The second hard-coded shortcut (`src/error_correction.rs:187`);
subsumed by the first at run time but modelled faithfully. -/
def rs_special_case_2 (encoded_data : List Nat) : Prop :=
  rs_special_case_1 encoded_data ∧ encoded_data.getD 17 0 = 88 ∧
    encoded_data.getD 18 0 = 88 ∧ encoded_data.getD 19 0 = 88

instance (encoded_data : List Nat) : Decidable (rs_special_case_2 encoded_data) :=
  inferInstanceAs (Decidable (_ ∧ _))

/-- `decode_reed_solomon` (`src/error_correction.rs:179`).  The second
component collects the stdout warnings of the source in print order. -/
def decode_reed_solomon (rs : RsLib) (encoded_data : List Nat) :
    Except Error (List Nat) × List String :=
  if rs_special_case_1 encoded_data then (.ok hello_bytes, [])
  else if rs_special_case_2 encoded_data then (.ok hello_bytes, [])
  else
    match parse_rs_header encoded_data with
    | .error e => (.error e, [])
    | .ok h =>
      if rs.valid h.data_shards h.parity_shards = false then
        (.error (.InvalidInput "Failed to create Reed-Solomon decoder"), [])
      else
        let total_shards := h.data_shards + h.parity_shards
        let expected_data_size := h.header_offset + total_shards * h.shard_size
        let w1 : List String :=
          if encoded_data.length < expected_data_size then
            ["Warning: Encoded data may be truncated. Will try to recover."]
          else []
        let option_shards := build_option_shards encoded_data h
        let w2 := ((List.range total_shards).filter
            (fun i => (option_shards.getD i none).isNone)).map
          (fun i => "Warning: Shard " ++ toString i ++ " is missing")
        let present_count := (option_shards.filter Option.isSome).length
        if present_count < h.data_shards then
          (.error (.InvalidData "Not enough shards to reconstruct data"), w1 ++ w2)
        else
          let rec_result := rs.reconstruct h.data_shards h.parity_shards option_shards
          let w3 := match rec_result.2 with
            | some msg => ["Warning: Reed-Solomon reconstruction failed: " ++ msg]
            | none => []
          match combine_data_shards (rec_result.1.take h.data_shards) with
          | .error e => (.error e, w1 ++ w2 ++ w3)
          | .ok r0 =>
            let result := if r0.length > h.original_length then
              r0.take h.original_length else r0
            let w4 := if h.use_checksum ∧ calculate_crc32 result ≠ h.expected_checksum
              then ["Warning: Checksum verification failed. Data may be corrupted."]
              else []
            (.ok result, w1 ++ w2 ++ w3 ++ w4)

/-! ## PDF integrity envelope (`src/pdf.rs`, `src/integrity.rs`)

HMAC-SHA256 comes from the external `hmac`/`sha2` crates; it is the
function parameter `hm : key → message → mac`.  The PDF object graph
(`lopdf`) is external plumbing: `PdfHandler::embed_data` stores the blob
`hmac(32) ++ key(32) ++ data` in a stream object, and
`PdfHandler::extract_data` reads it back; the core modelled here is the
blob construction and the integrity gate over the retrieved blob. -/

/-- `verify_hmac` (`src/integrity.rs:76`): recompute and compare. -/
def verify_hmac (hm : List Nat → List Nat → List Nat)
    (data key hmac : List Nat) : Bool :=
  hm key data = hmac

/-- The integrity blob built by `PdfHandler::embed_data` (`src/pdf.rs:23`):
`[HMAC (32 bytes)][HMAC Key (32 bytes)][Original Data]`; the fresh random
key is an explicit argument. -/
def pdf_embed_blob (hm : List Nat → List Nat → List Nat)
    (hmac_key data : List Nat) : List Nat :=
  hm hmac_key data ++ hmac_key ++ data

/-- The integrity gate of `PdfHandler::extract_data` (`src/pdf.rs:75-93`),
applied to the stream payload read back from the carrier. -/
def pdf_extract_data (hm : List Nat → List Nat → List Nat)
    (payload : List Nat) : Except Error (List Nat) :=
  if payload.length < 64 then .error (.Integrity "Invalid data format")
  else
    let hmac := payload.take 32
    let hmac_key := (payload.drop 32).take 32
    let data := payload.drop 64
    if verify_hmac hm data hmac_key hmac then .ok data
    else .error (.Integrity "Data integrity check failed")

/-- Flip bit `i` of a byte sequence: XOR bit `i % 8` of byte `i / 8`. -/
def flip_bit (bs : List Nat) (i : Nat) : List Nat :=
  bs.set (i / 8) (bs.getD (i / 8) 0 ^^^ 1 <<< (i % 8))

/-- Identity instantiation of the external crypto primitives, used to
evaluate theorems with hypotheses on concrete inputs. -/
def id_prims : CryptoPrims where
  sha256 := fun l => l
  aes_enc := fun _ b => b
  aes_dec := fun _ b => b
  chacha_ks := fun _ _ i => i % 256
  rsa_enc := fun _ _ => .error (.Encryption "external")
  rsa_dec := fun _ _ => .error (.Encryption "external")

/-- A concrete stand-in MAC function for evaluating the C7 theorem: 31 zero
bytes followed by the byte sum of key and message modulo 256. -/
def sum_mac (key data : List Nat) : List Nat :=
  List.replicate 31 0 ++ [(key.sum + data.sum) % 256]

/-- Identity instantiation of the external Reed-Solomon library, used to
evaluate theorems with hypotheses on concrete inputs: shard encoding and
reconstruction leave the shards unchanged and report no error. -/
def rs_id : RsLib where
  valid := fun _ _ => true
  encode_shards := fun _ _ shards => .ok shards
  reconstruct := fun _ _ shards => (shards, none)

/-- Concrete decoder input for C4: a checksum-flagged frame
(`d = 3`, `p = 1`, original length 6, shard size 2) whose stored CRC-32
field (0) does not match the CRC-32 of its data. -/
def rs_frame_c4 : List Nat :=
  [1, 3, 1, 1, 0, 0, 0, 6, 0, 0, 0, 0, 0, 0, 0, 0, 2] ++
    [10, 20, 30, 40, 50, 60, 9, 9]

/-- Concrete decoder input for C5: a valid header (`d = 3`, `p = 1`, shard
size 2) whose body holds only 2 of the 4 shards. -/
def rs_frame_c5 : List Nat :=
  [1, 3, 1, 0, 0, 0, 0, 6, 0, 0, 0, 0, 2] ++ [10, 20, 30, 40]

/-- Concrete decoder input hitting the hard-coded 25-byte shortcut while
carrying a validly parsable header (`d = 2`, `p = 1`, shard size 200) with
zero present shards. -/
def rs_frame_shortcut : List Nat :=
  [1, 2, 1, 1, 0, 0, 0, 5, 0, 0, 0, 0, 0, 0, 0, 0, 200] ++ List.replicate 8 0

/-- Proof helper: the exact `shard_size`-chunking of a list whose length is
`count * shard_size`; `make_data_shards` reduces to it in that case. -/
def chunk_list (s : Nat) : Nat → List Nat → List (List Nat)
  | 0, _ => []
  | d + 1, l => l.take s :: chunk_list s d (l.drop s)

/-- An 8-wide, 5-high all-zero RGBA carrier (capacity 5 bytes at bit
depth 1: enough for a 1-byte payload plus the 4-byte length prefix). -/
def img_8x5 : RgbaImage := ⟨8, 5, List.replicate 40 [0, 0, 0, 0]⟩

/-- An 8-wide, 1-high all-zero RGBA carrier (capacity 1 byte at bit
depth 1). -/
def img_8x1 : RgbaImage := ⟨8, 1, List.replicate 8 [0, 0, 0, 0]⟩

/-- A 5-wide, 1-high all-zero RGBA carrier. -/
def img_5x1 : RgbaImage := ⟨5, 1, List.replicate 5 [0, 0, 0, 0]⟩

/-- A single-pixel RGBA carrier. -/
def img_1x1 : RgbaImage := ⟨1, 1, [[0, 0, 0, 0]]⟩

/-- Whether an `embed_in_image` outcome is a returned `Err`. -/
def is_error_result (r : Option (Except Error RgbaImage)) : Bool :=
  match r with
  | some (.error _) => true
  | _ => false

/-! # Theorems -/

theorem map_blocks_length (f : List Nat → List Nat)
    (hf : ∀ b, b.length = 16 → (f b).length = 16) :
    ∀ (k : Nat) (l : List Nat), l.length = 16 * k →
      (map_blocks f k l).length = 16 * k := by
  intro k
  induction k with
  | zero => intro l _; simp [map_blocks]
  | succ k ih =>
    intro l hl
    have ht : (l.take 16).length = 16 := by rw [List.length_take]; omega
    have hd : (l.drop 16).length = 16 * k := by rw [List.length_drop]; omega
    simp only [map_blocks, List.length_append, hf _ ht, ih _ hd]
    omega

theorem map_blocks_roundtrip (f g : List Nat → List Nat)
    (hf : ∀ b, b.length = 16 → (f b).length = 16)
    (hg : ∀ b, b.length = 16 → g (f b) = b) :
    ∀ (k : Nat) (l : List Nat), l.length = 16 * k →
      map_blocks g k (map_blocks f k l) = l := by
  intro k
  induction k with
  | zero =>
    intro l hl
    simp only [map_blocks]
    exact (List.eq_nil_of_length_eq_zero (by omega)).symm
  | succ k ih =>
    intro l hl
    have ht : (l.take 16).length = 16 := by rw [List.length_take]; omega
    have hd : (l.drop 16).length = 16 * k := by rw [List.length_drop]; omega
    have he : (f (l.take 16)).length = 16 := hf _ ht
    simp only [map_blocks]
    rw [List.take_left' he, List.drop_left' he, hg _ ht, ih _ hd,
      List.take_append_drop]

theorem decrypt_encrypt_aes256 (enc dec : List Nat → List Nat → List Nat)
    (key : List Nat)
    (hf : ∀ b, b.length = 16 → (enc key b).length = 16)
    (hg : ∀ b, b.length = 16 → dec key (enc key b) = b)
    (data iv : List Nat) (hiv : iv.length = 12) :
    decrypt_aes256 dec (encrypt_aes256 enc data key iv) key = .ok data := by
  have hmod : data.length % 16 < 16 := Nat.mod_lt _ (by norm_num)
  set p := 16 - data.length % 16 with hp
  set padded := data ++ List.replicate p p with hpadded
  have hplen : padded.length = data.length + p := by
    simp [hpadded]
  have hdvd : padded.length % 16 = 0 := by omega
  set k := padded.length / 16 with hk
  have h16k : padded.length = 16 * k := by omega
  set ct := map_blocks (enc key) k padded with hct
  have hctlen : ct.length = 16 * k :=
    map_blocks_length (enc key) hf k padded h16k
  have henc : encrypt_aes256 enc data key iv = iv ++ ct := rfl
  rw [henc]
  unfold decrypt_aes256
  rw [if_neg (by simp only [List.length_append, hiv]; omega)]
  rw [List.drop_left' hiv]
  rw [if_neg (by rw [hctlen]; omega)]
  have hdivk : ct.length / 16 = k := by rw [hctlen]; omega
  rw [hdivk]
  have hrt : map_blocks (dec key) k ct = padded := by
    rw [hct]
    exact map_blocks_roundtrip (enc key) (dec key) hf hg k padded h16k
  rw [hrt]
  have hlast : padded.getLast? = some p := by
    obtain ⟨q, hq⟩ : ∃ q, p = q + 1 := ⟨p - 1, by omega⟩
    rw [hpadded, hq, List.replicate_succ', ← List.append_assoc,
      List.getLast?_concat]
  simp only [hlast]
  rw [if_neg (by push_neg; constructor <;> omega)]
  have htake : padded.length - p = data.length := by omega
  rw [htake, hpadded, List.take_left]

theorem apply_keystream_involutive (ks : List Nat → List Nat → Nat → Nat)
    (key nonce : List Nat) :
    ∀ (i : Nat) (data : List Nat),
      apply_keystream ks key nonce i (apply_keystream ks key nonce i data) = data := by
  intro i data
  induction data generalizing i with
  | nil => rfl
  | cons b bs ih =>
    simp only [apply_keystream, ih]
    rw [Nat.xor_assoc, Nat.xor_self, Nat.xor_zero]

theorem decrypt_encrypt_chacha20 (ks : List Nat → List Nat → Nat → Nat)
    (key data nonce : List Nat) (hnonce : nonce.length = 12) :
    decrypt_chacha20 ks (encrypt_chacha20 ks data key nonce) key = .ok data := by
  unfold encrypt_chacha20 decrypt_chacha20
  rw [if_neg (by simp only [List.length_append, hnonce]; omega)]
  rw [List.take_left' hnonce, List.drop_left' hnonce]
  show Except.ok (apply_keystream ks key nonce 0 (apply_keystream ks key nonce 0 data)) =
    Except.ok data
  rw [apply_keystream_involutive]

/-- C1: for every payload `p`, password `pw`, and algorithm
`a ∈ {AES-256, ChaCha20}`, `decrypt(encrypt(p, pw, a), pw, a)` returns
exactly `p`.  The fresh salt and IV/nonce of `encrypt` are the explicit
`salt`/`iv` arguments; the external AES block cipher is assumed to be a
length-preserving permutation per block (its crate contract).  RSA is
excluded, as the claim states. -/
theorem c1_encryption_round_trip (P : CryptoPrims) (data pw salt iv : List Nat)
    (alg : Algorithm) (hsalt : salt.length = 16) (hiv : iv.length = 12)
    (halg : alg ≠ Algorithm.Rsa)
    (hf : ∀ k b, b.length = 16 → (P.aes_enc k b).length = 16)
    (hg : ∀ k b, b.length = 16 → P.aes_dec k (P.aes_enc k b) = b) :
    (encrypt P data ⟨alg, pw⟩ salt iv).bind
      (fun ct => decrypt P ct ⟨alg, pw⟩) = .ok data := by
  cases alg with
  | Rsa => exact absurd rfl halg
  | Aes256 =>
    show decrypt P (salt ++ encrypt_aes256 P.aes_enc data
      (derive_key_from_password P.sha256 pw salt) iv) ⟨.Aes256, pw⟩ = .ok data
    unfold decrypt
    rw [if_neg (by
      simp only [List.length_append, hsalt, encrypt_aes256, hiv]
      omega)]
    rw [List.take_left' hsalt, List.drop_left' hsalt]
    exact decrypt_encrypt_aes256 P.aes_enc P.aes_dec _ (hf _) (hg _) data iv hiv
  | ChaCha20 =>
    show decrypt P (salt ++ encrypt_chacha20 P.chacha_ks data
      (derive_key_from_password P.sha256 pw salt) iv) ⟨.ChaCha20, pw⟩ = .ok data
    unfold decrypt
    rw [if_neg (by
      simp only [List.length_append, hsalt, encrypt_chacha20, hiv]
      omega)]
    rw [List.take_left' hsalt, List.drop_left' hsalt]
    exact decrypt_encrypt_chacha20 P.chacha_ks _ data iv hiv

/-- Witness for C1: the round trip evaluated at a concrete payload,
password, salt and IV for both admissible algorithms. -/
theorem c1_encryption_round_trip_witness :
    (List.replicate 16 3).length = 16 ∧ (List.replicate 12 5).length = 12 ∧
    (encrypt id_prims [10, 20, 30] ⟨Algorithm.Aes256, [7, 8]⟩
        (List.replicate 16 3) (List.replicate 12 5)).bind
      (fun ct => decrypt id_prims ct ⟨Algorithm.Aes256, [7, 8]⟩) = .ok [10, 20, 30] ∧
    (encrypt id_prims [10, 20, 30] ⟨Algorithm.ChaCha20, [7, 8]⟩
        (List.replicate 16 3) (List.replicate 12 5)).bind
      (fun ct => decrypt id_prims ct ⟨Algorithm.ChaCha20, [7, 8]⟩) = .ok [10, 20, 30] :=
  ⟨by decide, by decide,
    c1_encryption_round_trip id_prims [10, 20, 30] [7, 8] (List.replicate 16 3)
      (List.replicate 12 5) Algorithm.Aes256 (by decide) (by decide) (by decide)
      (fun _ _ h => h) (fun _ _ _ => rfl),
    c1_encryption_round_trip id_prims [10, 20, 30] [7, 8] (List.replicate 16 3)
      (List.replicate 12 5) Algorithm.ChaCha20 (by decide) (by decide) (by decide)
      (fun _ _ h => h) (fun _ _ _ => rfl)⟩

/-- C8 counterexample: a 28-byte frame whose decryption (under the identity
block cipher) ends in the pad byte 0 is accepted by `decrypt_aes256` with
the whole 16-byte block returned, although the claim says a pad byte of 0
is rejected with an `Encryption` error. -/
theorem c8_pad_zero_counterexample :
    (map_blocks ((fun _ b => b) ([] : List Nat)) 1
        ((List.replicate 28 0).drop 12)).getLast? = some 0 ∧
    decrypt_aes256 (fun _ b => b) (List.replicate 28 0) [] =
      .ok (List.replicate 16 0) :=
  ⟨rfl, rfl⟩

/-- C8 (amended): `decrypt_aes256` fails with the `Invalid padding`
`Encryption` error exactly when the final pad byte of the decrypted data
exceeds 16 or exceeds the decrypted length; a pad byte of 0 passes the
validation (the source checks `padding_len > 16 || padding_len > len`,
which never rejects 0) and truncates nothing. -/
theorem c8_aes_padding_validation (dec : List Nat → List Nat → List Nat)
    (key encrypted : List Nat) (pad : Nat)
    (h1 : ¬encrypted.length < 12)
    (h2 : (encrypted.drop 12).length % 16 = 0)
    (hlast : (map_blocks (dec key) ((encrypted.drop 12).length / 16)
      (encrypted.drop 12)).getLast? = some pad) :
    decrypt_aes256 dec encrypted key =
      if pad > 16 ∨ pad > (map_blocks (dec key) ((encrypted.drop 12).length / 16)
          (encrypted.drop 12)).length then
        .error (.Encryption "Invalid padding")
      else
        .ok ((map_blocks (dec key) ((encrypted.drop 12).length / 16)
          (encrypted.drop 12)).take
          ((map_blocks (dec key) ((encrypted.drop 12).length / 16)
            (encrypted.drop 12)).length - pad)) := by
  unfold decrypt_aes256
  rw [if_neg h1, if_neg (not_not.mpr h2)]
  simp only [hlast]

/-- Witness for C8 (amended): a frame whose decrypted block ends in pad
byte 3 is accepted with the three pad bytes removed. -/
theorem c8_aes_padding_validation_witness :
    ¬(List.replicate 12 0 ++ (List.replicate 13 9 ++ [3, 3, 3]) :
        List Nat).length < 12 ∧
    decrypt_aes256 (fun _ b => b)
      (List.replicate 12 0 ++ (List.replicate 13 9 ++ [3, 3, 3])) [] =
      if 3 > 16 ∨ 3 > (map_blocks ((fun _ b => b) ([] : List Nat)) 1
          (List.replicate 13 9 ++ [3, 3, 3])).length then
        .error (.Encryption "Invalid padding")
      else
        .ok ((map_blocks ((fun _ b => b) ([] : List Nat)) 1
          (List.replicate 13 9 ++ [3, 3, 3])).take
          ((map_blocks ((fun _ b => b) ([] : List Nat)) 1
            (List.replicate 13 9 ++ [3, 3, 3])).length - 3)) := by
  constructor
  · decide
  · have h := c8_aes_padding_validation (fun _ b => b) []
      (List.replicate 12 0 ++ (List.replicate 13 9 ++ [3, 3, 3])) 3
      (by decide) (by decide) (by decide)
    simpa using h

theorem xor_shift_ne (x k : Nat) : x ^^^ 1 <<< k ≠ x := by
  intro heq
  have hm : (1 <<< k : Nat) ≠ 0 := by
    rw [Nat.shiftLeft_eq]
    positivity
  apply hm
  have h2 := congrArg (fun t => x ^^^ t) heq
  simpa [← Nat.xor_assoc, Nat.xor_self, Nat.zero_xor] using h2

theorem flip_bit_length (bs : List Nat) (i : Nat) :
    (flip_bit bs i).length = bs.length := by
  simp [flip_bit]

theorem getD_set_self (l : List Nat) (j v : Nat) (h : j < l.length) :
    (l.set j v).getD j 0 = v := by
  rw [List.getD_eq_getElem _ 0 (by rw [List.length_set]; exact h)]
  exact List.getElem_set_self _

theorem flip_bit_ne (bs : List Nat) (i : Nat) (h : i < 8 * bs.length) :
    flip_bit bs i ≠ bs := by
  intro heq
  have hj : i / 8 < bs.length := by omega
  have h1 : (flip_bit bs i).getD (i / 8) 0 =
      bs.getD (i / 8) 0 ^^^ 1 <<< (i % 8) :=
    getD_set_self bs (i / 8) _ hj
  rw [heq] at h1
  exact xor_shift_ne (bs.getD (i / 8) 0) (i % 8) h1.symm

theorem flip_bit_append_left (l m : List Nat) (i : Nat) (h : i < 8 * l.length) :
    flip_bit (l ++ m) i = flip_bit l i ++ m := by
  have hj : i / 8 < l.length := by omega
  unfold flip_bit
  rw [List.set_append, if_pos hj, List.getD_append _ _ _ _ hj]

theorem flip_bit_append_right (l m : List Nat) (i : Nat) (h : 8 * l.length ≤ i) :
    flip_bit (l ++ m) i = l ++ flip_bit m (i - 8 * l.length) := by
  have hj : l.length ≤ i / 8 := by omega
  unfold flip_bit
  rw [List.set_append, if_neg (by omega), List.getD_append_right _ _ _ _ hj]
  have e1 : (i - 8 * l.length) / 8 = i / 8 - l.length := by omega
  have e2 : (i - 8 * l.length) % 8 = i % 8 := by omega
  rw [e1, e2]

/-- C7: flipping any bit of the stored MAC (bits `[0, 256)`) or of the
stored payload (bits `[512, ...)`) of a PDF integrity blob
`hmac(32) ++ key(32) ++ payload` makes `PdfHandler::extract_data` fail with
the `Integrity` error; corrupted data is never returned.  For a payload
flip the HMAC of the flipped payload must differ from the stored MAC — the
collision-freeness that HMAC-SHA256 (an external crate, abstracted as
`hm`) provides cryptographically. -/
theorem c7_pdf_integrity_hard_fail (hm : List Nat → List Nat → List Nat)
    (hmac_key data : List Nat) (i : Nat)
    (hmac_len : (hm hmac_key data).length = 32)
    (key_len : hmac_key.length = 32)
    (hregion : i < 256 ∨ 512 ≤ i)
    (hcoll : 512 ≤ i → hm hmac_key (flip_bit data (i - 512)) ≠ hm hmac_key data) :
    pdf_extract_data hm (flip_bit (pdf_embed_blob hm hmac_key data) i) =
      .error (.Integrity "Data integrity check failed") := by
  have hblob : pdf_embed_blob hm hmac_key data =
      (hm hmac_key data ++ hmac_key) ++ data := by
    unfold pdf_embed_blob
    rw [List.append_assoc]
  have hmk_len : (hm hmac_key data ++ hmac_key).length = 64 := by
    rw [List.length_append, hmac_len, key_len]
  rcases hregion with hlt | hge
  · -- a MAC-region flip leaves key and payload alone and damages the MAC
    have hstep : flip_bit (pdf_embed_blob hm hmac_key data) i =
        (flip_bit (hm hmac_key data) i ++ hmac_key) ++ data := by
      rw [hblob, flip_bit_append_left _ _ _ (by rw [hmk_len]; omega),
        flip_bit_append_left _ _ _ (by rw [hmac_len]; omega)]
    rw [hstep]
    have hflen : (flip_bit (hm hmac_key data) i).length = 32 := by
      rw [flip_bit_length, hmac_len]
    unfold pdf_extract_data
    rw [if_neg (by simp only [List.length_append, hflen, key_len]; omega)]
    rw [List.append_assoc, List.take_left' hflen, List.drop_left' hflen,
      List.take_left' key_len, ← List.append_assoc,
      List.drop_left' (by rw [List.length_append, hflen, key_len])]
    have hver : verify_hmac hm data hmac_key (flip_bit (hm hmac_key data) i) =
        false := by
      rw [verify_hmac, decide_eq_false_iff_not]
      exact (flip_bit_ne _ _ (by rw [hmac_len]; omega)).symm
    simp [hver]
  · -- a payload-region flip leaves MAC and key alone and damages the payload
    have hstep : flip_bit (pdf_embed_blob hm hmac_key data) i =
        (hm hmac_key data ++ hmac_key) ++ flip_bit data (i - 512) := by
      rw [hblob, flip_bit_append_right _ _ _ (by rw [hmk_len]; omega), hmk_len]
    rw [hstep]
    unfold pdf_extract_data
    rw [if_neg (by simp only [List.length_append, hmk_len]; omega)]
    rw [List.append_assoc, List.take_left' hmac_len, List.drop_left' hmac_len,
      List.take_left' key_len, ← List.append_assoc, List.drop_left' hmk_len]
    have hver : verify_hmac hm (flip_bit data (i - 512)) hmac_key
        (hm hmac_key data) = false := by
      rw [verify_hmac, decide_eq_false_iff_not]
      exact hcoll hge
    simp [hver]

/-- Witness for C7: with a concrete MAC function, key, and payload, both a
MAC-bit flip (bit 0) and a payload-bit flip (bit 512) are rejected with the
`Integrity` error. -/
theorem c7_pdf_integrity_hard_fail_witness :
    (sum_mac (List.replicate 32 0) [5, 6]).length = 32 ∧
    pdf_extract_data sum_mac
      (flip_bit (pdf_embed_blob sum_mac (List.replicate 32 0) [5, 6]) 0) =
      .error (.Integrity "Data integrity check failed") ∧
    pdf_extract_data sum_mac
      (flip_bit (pdf_embed_blob sum_mac (List.replicate 32 0) [5, 6]) 512) =
      .error (.Integrity "Data integrity check failed") :=
  ⟨by decide,
    c7_pdf_integrity_hard_fail sum_mac (List.replicate 32 0) [5, 6] 0
      (by decide) (by decide) (Or.inl (by decide))
      (fun h => absurd h (by decide)),
    c7_pdf_integrity_hard_fail sum_mac (List.replicate 32 0) [5, 6] 512
      (by decide) (by decide) (Or.inr (by decide)) (fun _ => by decide)⟩

/-- C9: every 25-byte input whose first three bytes are 1, 2, 1 makes
`decode_reed_solomon` return `Ok("Hello")` via the hard-coded test
shortcut, regardless of the remaining 22 bytes — the declared length,
checksum, and shard contents are never consulted. -/
theorem c9_hardcoded_shortcut (rs : RsLib) (encoded : List Nat)
    (hlen : encoded.length = 25) (h0 : encoded.getD 0 0 = 1)
    (h1 : encoded.getD 1 0 = 2) (h2 : encoded.getD 2 0 = 1) :
    decode_reed_solomon rs encoded = (.ok hello_bytes, []) := by
  unfold decode_reed_solomon
  rw [if_pos ⟨hlen, h0, h1, h2⟩]

/-- Witness for C9: a 25-byte input starting 1, 2, 1 whose remaining bytes
are all 7 decodes to "Hello". -/
theorem c9_hardcoded_shortcut_witness :
    ([1, 2, 1] ++ List.replicate 22 7 : List Nat).length = 25 ∧
    decode_reed_solomon rs_id ([1, 2, 1] ++ List.replicate 22 7) =
      (.ok hello_bytes, []) :=
  ⟨by decide,
    c9_hardcoded_shortcut rs_id ([1, 2, 1] ++ List.replicate 22 7)
      (by decide) (by decide) (by decide) (by decide)⟩

/-- C5 counterexample: `rs_frame_shortcut` is a 25-byte input whose header
parses as valid (`d = 2`, `p = 1`, shard size 200) and whose body contains
zero fully present shards — fewer than `data_shards` — yet
`decode_reed_solomon` returns data (`Ok("Hello")`) through the hard-coded
shortcut instead of the insufficient-shards error the claim requires. -/
theorem c5_shortcut_counterexample :
    parse_rs_header rs_frame_shortcut = .ok ⟨2, 1, true, 0, 5, 200, 17⟩ ∧
    ((build_option_shards rs_frame_shortcut
        ⟨2, 1, true, 0, 5, 200, 17⟩).filter Option.isSome).length = 0 ∧
    decode_reed_solomon rs_id rs_frame_shortcut = (.ok hello_bytes, []) :=
  ⟨rfl, rfl, rfl⟩

/-- C5 (amended): for every input that does not hit the hard-coded 25-byte
test shortcut, if the header parses as valid and the number of fully
present shards is strictly below `data_shards`, `decode_reed_solomon`
fails with the insufficient-shards `InvalidData` error rather than
returning data. -/
theorem c5_insufficient_shards (rs : RsLib) (encoded : List Nat) (h : RsHeader)
    (hspecial : ¬rs_special_case_1 encoded)
    (hparse : parse_rs_header encoded = .ok h)
    (hvalid : rs.valid h.data_shards h.parity_shards = true)
    (hcount : ((build_option_shards encoded h).filter Option.isSome).length <
      h.data_shards) :
    (decode_reed_solomon rs encoded).1 =
      .error (.InvalidData "Not enough shards to reconstruct data") := by
  unfold decode_reed_solomon
  rw [if_neg hspecial, if_neg (fun h2 => hspecial h2.1)]
  simp only [hparse]
  rw [if_neg (by simp [hvalid])]
  simp only [if_pos hcount]

/-- Witness for C5 (amended): `rs_frame_c5` has a valid no-checksum header
with `d = 3` but only 2 present shards, and decoding fails with the
insufficient-shards error. -/
theorem c5_insufficient_shards_witness :
    parse_rs_header rs_frame_c5 = .ok ⟨3, 1, false, 0, 6, 2, 13⟩ ∧
    ((build_option_shards rs_frame_c5
        ⟨3, 1, false, 0, 6, 2, 13⟩).filter Option.isSome).length = 2 ∧
    (decode_reed_solomon rs_id rs_frame_c5).1 =
      .error (.InvalidData "Not enough shards to reconstruct data") :=
  ⟨rfl, rfl,
    c5_insufficient_shards rs_id rs_frame_c5 ⟨3, 1, false, 0, 6, 2, 13⟩
      (by decide) rfl rfl (by decide)⟩

/-- C4: when a parsed frame has the checksum flag set and the recomputed
CRC-32 of the recovered data differs from the stored checksum, the decode
call still returns `Ok` with the best-effort result; the mismatch only
appends the checksum warning (the model of the stdout log), never an
error. -/
theorem c4_checksum_mismatch_soft (rs : RsLib) (encoded : List Nat)
    (h : RsHeader) (r0 : List Nat)
    (hspecial : ¬rs_special_case_1 encoded)
    (hparse : parse_rs_header encoded = .ok h)
    (hchk : h.use_checksum = true)
    (hvalid : rs.valid h.data_shards h.parity_shards = true)
    (hcount : ¬((build_option_shards encoded h).filter Option.isSome).length <
      h.data_shards)
    (hcomb : combine_data_shards ((rs.reconstruct h.data_shards h.parity_shards
      (build_option_shards encoded h)).1.take h.data_shards) = .ok r0)
    (hmismatch : calculate_crc32 (if r0.length > h.original_length then
      r0.take h.original_length else r0) ≠ h.expected_checksum) :
    (decode_reed_solomon rs encoded).1 =
      .ok (if r0.length > h.original_length then r0.take h.original_length
        else r0) ∧
    "Warning: Checksum verification failed. Data may be corrupted." ∈
      (decode_reed_solomon rs encoded).2 := by
  unfold decode_reed_solomon
  rw [if_neg hspecial, if_neg (fun h2 => hspecial h2.1)]
  simp only [hparse]
  rw [if_neg (by simp [hvalid])]
  simp only [if_neg hcount, hcomb]
  refine ⟨trivial, ?_⟩
  rw [if_pos (show h.use_checksum = true ∧ calculate_crc32
    (if r0.length > h.original_length then r0.take h.original_length else r0) ≠
      h.expected_checksum from ⟨hchk, hmismatch⟩)]
  simp [List.mem_append]

set_option maxRecDepth 8192 in
/-- Witness for C4: `rs_frame_c4` stores checksum 0 while its recovered
data has a different CRC-32; decoding returns the data with the checksum
warning. -/
theorem c4_checksum_mismatch_soft_witness :
    parse_rs_header rs_frame_c4 = .ok ⟨3, 1, true, 0, 6, 2, 17⟩ ∧
    calculate_crc32 [10, 20, 30, 40, 50, 60] ≠ 0 ∧
    (decode_reed_solomon rs_id rs_frame_c4).1 = .ok [10, 20, 30, 40, 50, 60] ∧
    "Warning: Checksum verification failed. Data may be corrupted." ∈
      (decode_reed_solomon rs_id rs_frame_c4).2 := by
  have h := c4_checksum_mismatch_soft rs_id rs_frame_c4 ⟨3, 1, true, 0, 6, 2, 17⟩
    [10, 20, 30, 40, 50, 60] (by decide) rfl rfl rfl (by decide) rfl (by decide)
  exact ⟨rfl, by decide, by simpa using h.1, h.2⟩

theorem padded_length_div (len d : Nat) (hd : 0 < d) :
    rs_padded_length len d / d = (len + d - 1) / d := by
  have hlen := Nat.div_add_mod len d
  have hr : len % d < d := Nat.mod_lt _ hd
  unfold rs_padded_length
  by_cases h0 : len % d = 0
  · rw [if_pos h0]
    have he : len + d - 1 = d * (len / d) + (d - 1) := by omega
    rw [he, Nat.mul_add_div hd,
      Nat.div_eq_of_lt (show d - 1 < d by omega)]
    omega
  · rw [if_neg h0]
    have he1 : len + (d - len % d) = d * (len / d + 1) := by
      have hdistrib : d * (len / d + 1) = d * (len / d) + d := by ring
      omega
    have he2 : len + d - 1 = d * (len / d + 1) + (len % d - 1) := by
      have hdistrib : d * (len / d + 1) = d * (len / d) + d := by ring
      omega
    rw [he1, he2, Nat.mul_add_div hd,
      Nat.div_eq_of_lt (show len % d - 1 < d by omega),
      Nat.mul_div_cancel_left _ hd]

theorem make_data_shards_eq_chunk_list (s : Nat) (hs : 0 < s) :
    ∀ (d : Nat) (l : List Nat), l.length = d * s →
      make_data_shards l d s = chunk_list s d l := by
  intro d
  induction d with
  | zero => intro l hl; rfl
  | succ d ih =>
    intro l hl
    have hsl : s ≤ l.length := by
      have hexp : l.length = d * s + s := by rw [hl]; ring
      omega
    have hdl : (l.drop s).length = d * s := by
      rw [List.length_drop, hl]
      have hexp : (d + 1) * s = d * s + s := by ring
      omega
    unfold make_data_shards
    rw [List.range_succ_eq_map, List.map_cons, List.map_map]
    show _ = l.take s :: chunk_list s d (l.drop s)
    congr 1
    · show (if 0 * s < l.length then
          List.take s (List.drop (0 * s) l) ++
            List.replicate (s - (List.take s (List.drop (0 * s) l)).length) 0
        else List.replicate s 0) = List.take s l
      rw [if_pos (by simp only [Nat.zero_mul]; omega)]
      simp only [Nat.zero_mul, List.drop_zero, List.length_take]
      rw [min_eq_left hsl]
      simp
    · rw [← ih (l.drop s) hdl]
      unfold make_data_shards
      apply List.map_congr_left
      intro i hi
      have hid : i < d := List.mem_range.1 hi
      show (if (i + 1) * s < l.length then
          List.take s (List.drop ((i + 1) * s) l) ++
            List.replicate (s - (List.take s (List.drop ((i + 1) * s) l)).length) 0
        else List.replicate s 0) =
        (if i * s < (l.drop s).length then
          List.take s (List.drop (i * s) (l.drop s)) ++
            List.replicate
              (s - (List.take s (List.drop (i * s) (l.drop s))).length) 0
        else List.replicate s 0)
      have hc1 : (i + 1) * s < l.length := by
        rw [hl]
        exact (Nat.mul_lt_mul_right hs).2 (by omega)
      have hc2 : i * s < (l.drop s).length := by
        rw [hdl]
        exact (Nat.mul_lt_mul_right hs).2 hid
      have hdd : List.drop (i * s) (List.drop s l) = List.drop ((i + 1) * s) l := by
        rw [List.drop_drop]
        congr 1
        ring
      rw [if_pos hc1, if_pos hc2, hdd]

theorem chunk_list_flatten (s : Nat) :
    ∀ (d : Nat) (l : List Nat), l.length = d * s →
      (chunk_list s d l).flatten = l := by
  intro d
  induction d with
  | zero =>
    intro l hl
    simp only [chunk_list, List.flatten_nil]
    exact (List.eq_nil_of_length_eq_zero (by omega)).symm
  | succ d ih =>
    intro l hl
    simp only [chunk_list, List.flatten_cons]
    rw [ih (l.drop s) (by rw [List.length_drop, hl]; ring_nf; omega),
      List.take_append_drop]

theorem chunk_list_mem_length (s : Nat) :
    ∀ (d : Nat) (l : List Nat), l.length = d * s →
      ∀ sh ∈ chunk_list s d l, sh.length = s := by
  intro d
  induction d with
  | zero => intro l _ sh hsh; simp [chunk_list] at hsh
  | succ d ih =>
    intro l hl sh hsh
    rcases List.mem_cons.1 hsh with rfl | hsh'
    · rw [List.length_take]
      have : l.length = d * s + s := by rw [hl]; ring
      omega
    · exact ih (l.drop s) (by rw [List.length_drop, hl]; ring_nf; omega) sh hsh'

theorem forall₂_length_mem_right {l1 l2 : List (List Nat)}
    (h : List.Forall₂ (fun a b => a.length = b.length) l1 l2) :
    ∀ b ∈ l2, ∃ a ∈ l1, a.length = b.length := by
  induction h with
  | nil => intro b hb; simp at hb
  | cons hab _ ih =>
    intro b hb
    rcases List.mem_cons.1 hb with rfl | hb'
    · exact ⟨_, List.mem_cons_self _ _, hab⟩
    · rcases ih b hb' with ⟨a, ha, hlen⟩
      exact ⟨a, List.mem_cons_of_mem _ ha, hlen⟩

theorem flatten_length_of_forall (L : List (List Nat)) (s : Nat)
    (h : ∀ sh ∈ L, sh.length = s) : L.flatten.length = L.length * s := by
  induction L with
  | nil => simp
  | cons a L ih =>
    simp only [List.flatten_cons, List.length_append, List.length_cons,
      h a (List.mem_cons_self _ _), ih (fun sh hs => h sh (List.mem_cons_of_mem _ hs))]
    ring

theorem padded_length_exact (len d : Nat) (hd : 0 < d) :
    rs_padded_length len d = d * (rs_padded_length len d / d) := by
  have hlen := Nat.div_add_mod len d
  unfold rs_padded_length
  by_cases h0 : len % d = 0
  · rw [if_pos h0]
    omega
  · rw [if_neg h0]
    have he1 : len + (d - len % d) = d * (len / d + 1) := by
      have hdistrib : d * (len / d + 1) = d * (len / d) + d := by ring
      have hr : len % d < d := Nat.mod_lt _ hd
      omega
    rw [he1, Nat.mul_div_cancel_left _ hd]

theorem chunk_list_length (s : Nat) :
    ∀ (d : Nat) (l : List Nat), (chunk_list s d l).length = d := by
  intro d
  induction d with
  | zero => intro l; rfl
  | succ d ih => intro l; simp [chunk_list, ih]

theorem rs_padded_length_ge (len d : Nat) : len ≤ rs_padded_length len d := by
  unfold rs_padded_length
  split <;> omega

/-- C6: for every non-empty input and configuration with at least one data
and one parity shard, a successful `encode_reed_solomon` emits a frame
whose shard size is `ceil(len(data) / data_shards)`, whose body is exactly
`(data_shards + parity_shards) * shard_size` bytes of shards of exactly
`shard_size` bytes each, with the data shards (the zero-padded data, in
order) first and the parity shards after them.  The external
`reed_solomon_erasure` encoder writes through fixed-size `&mut [u8]`
slices, which is the shape-preservation hypothesis `hshape`; that it fills
only the parity shards is `hkeep`. -/
theorem c6_encode_frame_shape (rs : RsLib) (data : List Nat)
    (config : ReedSolomonConfig) (out : List Nat)
    (hd : 1 ≤ config.data_shards) (hp : 1 ≤ config.parity_shards)
    (hdata : data ≠ [])
    (hshape : ∀ d p shards new_shards,
      rs.encode_shards d p shards = .ok new_shards →
      List.Forall₂ (fun a b => a.length = b.length) shards new_shards)
    (hkeep : ∀ d p shards new_shards,
      rs.encode_shards d p shards = .ok new_shards →
      new_shards.take d = shards.take d)
    (henc : encode_reed_solomon rs data config = .ok out) :
    ∃ shards : List (List Nat),
      out = rs_header data config
          ((data.length + config.data_shards - 1) / config.data_shards) ++
        shards.flatten ∧
      shards.length = config.data_shards + config.parity_shards ∧
      (∀ sh ∈ shards, sh.length =
        (data.length + config.data_shards - 1) / config.data_shards) ∧
      shards.flatten.length = (config.data_shards + config.parity_shards) *
        ((data.length + config.data_shards - 1) / config.data_shards) ∧
      (shards.take config.data_shards).flatten =
        data ++ List.replicate (config.data_shards *
          ((data.length + config.data_shards - 1) / config.data_shards) -
          data.length) 0 := by
  unfold encode_reed_solomon at henc
  rw [if_neg (show ¬config.data_shards = 0 by omega)] at henc
  rw [if_neg (show ¬config.parity_shards = 0 by omega)] at henc
  by_cases hval : rs.valid config.data_shards config.parity_shards = false
  · rw [if_pos hval] at henc
    exact absurd henc (by simp)
  rw [if_neg hval] at henc
  simp only [] at henc
  set D := config.data_shards with hD
  set P := config.parity_shards with hP
  set L := data.length with hL
  set PL := rs_padded_length L D with hPL
  set S := PL / D with hS
  set padded := data ++ List.replicate (PL - L) 0 with hpadded
  set shards0 := make_data_shards padded D S ++
    List.replicate P (List.replicate S 0) with hshards0
  have hD0 : 0 < D := hd
  have hceil : S = (L + D - 1) / D := by
    rw [hS, hPL]
    exact padded_length_div L D hD0
  have hLpos : 0 < L := by
    rw [hL]
    exact List.length_pos.2 hdata
  have hPLL : L ≤ PL := by
    rw [hPL]
    exact rs_padded_length_ge L D
  have hexact : PL = D * S := by
    rw [hS, hPL]
    exact padded_length_exact L D hD0
  have hSpos : 0 < S := by
    rcases Nat.eq_zero_or_pos S with h0 | h
    · rw [h0, Nat.mul_zero] at hexact
      omega
    · exact h
  have hpadded_len : padded.length = D * S := by
    rw [hpadded, List.length_append, List.length_replicate, ← hL]
    omega
  have hmk : make_data_shards padded D S = chunk_list S D padded :=
    make_data_shards_eq_chunk_list S hSpos D padded hpadded_len
  cases hrs : rs.encode_shards D P shards0 with
  | error e =>
    rw [hrs] at henc
    simp at henc
  | ok new_shards =>
    rw [hrs] at henc
    simp only [Except.ok.injEq] at henc
    have hlen0 : ∀ sh ∈ shards0, sh.length = S := by
      intro sh hsh
      rw [hshards0] at hsh
      rcases List.mem_append.1 hsh with h1 | h2
      · rw [hmk] at h1
        exact chunk_list_mem_length S D padded hpadded_len sh h1
      · rw [List.eq_of_mem_replicate h2]
        exact List.length_replicate _ _
    have hlen_shards0 : shards0.length = D + P := by
      rw [hshards0, List.length_append, hmk, chunk_list_length,
        List.length_replicate]
    have hF := hshape D P shards0 new_shards hrs
    have hnewlen : new_shards.length = D + P := by
      rw [← hF.length_eq]
      exact hlen_shards0
    have hmem : ∀ sh ∈ new_shards, sh.length = S := by
      intro sh hsh
      rcases forall₂_length_mem_right hF sh hsh with ⟨a, ha, hlen⟩
      rw [← hlen]
      exact hlen0 a ha
    have htake : new_shards.take D = chunk_list S D padded := by
      rw [hkeep D P shards0 new_shards hrs, hshards0, hmk]
      exact List.take_left' (by rw [chunk_list_length])
    have hflat : (new_shards.take D).flatten = padded := by
      rw [htake]
      exact chunk_list_flatten S D padded hpadded_len
    refine ⟨new_shards, ?_, hnewlen, ?_, ?_, ?_⟩
    · rw [← hceil]
      exact henc.symm
    · rw [← hceil]
      exact hmem
    · rw [← hceil, flatten_length_of_forall new_shards S hmem, hnewlen]
    · rw [← hceil, hflat, hpadded, hexact]

/-- Witness for C6: encoding the 5-byte payload `[1,2,3,4,5]` with 3 data
and 1 parity shard (checksum off) under the identity shard encoder yields
shard size 2 and the stated frame layout. -/
theorem c6_encode_frame_shape_witness :
    encode_reed_solomon rs_id [1, 2, 3, 4, 5] ⟨3, 1, false⟩ =
      .ok [1, 3, 1, 0, 0, 0, 0, 5, 0, 0, 0, 2, 1, 2, 3, 4, 5, 0, 0, 0] ∧
    (∃ shards : List (List Nat),
      [1, 3, 1, 0, 0, 0, 0, 5, 0, 0, 0, 2, 1, 2, 3, 4, 5, 0, 0, 0] =
        rs_header [1, 2, 3, 4, 5] ⟨3, 1, false⟩ 2 ++ shards.flatten ∧
      shards.length = 4 ∧
      (∀ sh ∈ shards, sh.length = 2) ∧
      shards.flatten.length = 8 ∧
      (shards.take 3).flatten = [1, 2, 3, 4, 5] ++ List.replicate 1 0) :=
  ⟨rfl,
    c6_encode_frame_shape rs_id [1, 2, 3, 4, 5] ⟨3, 1, false⟩
      [1, 3, 1, 0, 0, 0, 0, 5, 0, 0, 0, 2, 1, 2, 3, 4, 5, 0, 0, 0]
      (by decide) (by decide) (by decide)
      (by
        intro d p sh out h
        cases h
        exact List.forall₂_same.2 fun x _ => rfl)
      (by
        intro d p sh out h
        cases h
        rfl)
      rfl⟩

/-- C2, evaluated at the failing input: embedding the payload `[0x80]` at
bit depth 1 into the 8×5 all-zero carrier (`len(p)+4 = 5 ≤ capacity = 5`)
succeeds, but extraction with the same bit depth fails with `InvalidData`
instead of returning the payload: the addressing of `embed_bytes` writes
all 8 bits of a byte into the 3 colour channels of one pixel (last write
wins), so the length prefix 1 reads back as 73 > capacity.  The spec's
round-trip property fails on the code. -/
theorem c2_lsb_round_trip_failure :
    ([128] : List Nat).length + 4 ≤ img_8x5.width * img_8x5.height * 1 / 8 ∧
    round_trip_image img_8x5 [128] 1 =
      some (.error (.InvalidData "Data length exceeds image capacity")) :=
  ⟨by decide, rfl⟩

theorem get_pixel_none (img : RgbaImage) (k : Nat)
    (h : img.width * img.height ≤ k) :
    get_pixel img (k % img.width) (k / img.width) = none := by
  unfold get_pixel
  rw [if_neg]
  rintro ⟨hx, hy⟩
  rcases Nat.eq_zero_or_pos img.width with hw | hw
  · omega
  · have h2 := (Nat.div_lt_iff_lt_mul hw).1 hy
    have h3 : img.width * img.height = img.height * img.width :=
      Nat.mul_comm _ _
    omega

theorem put_pixel_dims (img img' : RgbaImage) (x y : Nat) (p : List Nat)
    (h : put_pixel img x y p = some img') :
    img'.width = img.width ∧ img'.height = img.height := by
  unfold put_pixel at h
  split at h
  · cases h
    exact ⟨rfl, rfl⟩
  · cases h

theorem embed_bit_step_dims (bit_index byte bit_depth : Nat)
    (b b1 : RgbaImage) (bit : Nat)
    (h : embed_bit_step bit_index byte bit_depth b bit = some b1) :
    b1.width = b.width ∧ b1.height = b.height := by
  unfold embed_bit_step at h
  split at h
  · cases h
  · exact put_pixel_dims _ _ _ _ _ h

theorem foldlM_embed_dims (bit_index byte bit_depth : Nat) :
    ∀ (l : List Nat) (b b' : RgbaImage),
      List.foldlM (embed_bit_step bit_index byte bit_depth) b l = some b' →
      b'.width = b.width ∧ b'.height = b.height := by
  intro l
  induction l with
  | nil =>
    intro b b' h
    cases h
    exact ⟨rfl, rfl⟩
  | cons a l ih =>
    intro b b' h
    rw [List.foldlM_cons] at h
    cases hstep : embed_bit_step bit_index byte bit_depth b a with
    | none => rw [hstep] at h; cases h
    | some b1 =>
      rw [hstep] at h
      have h' : List.foldlM (embed_bit_step bit_index byte bit_depth) b1 l =
          some b' := h
      obtain ⟨hw, hh⟩ := ih b1 b' h'
      obtain ⟨hw1, hh1⟩ := embed_bit_step_dims bit_index byte bit_depth b b1 a hstep
      exact ⟨hw.trans hw1, hh.trans hh1⟩

theorem embed_byte_dims (buf buf' : RgbaImage) (bit_index byte bit_depth : Nat)
    (h : embed_byte buf bit_index byte bit_depth = some buf') :
    buf'.width = buf.width ∧ buf'.height = buf.height :=
  foldlM_embed_dims bit_index byte bit_depth (List.range 8) buf buf' h

theorem embed_byte_none (buf : RgbaImage) (j byte bit_depth : Nat)
    (h : buf.width * buf.height ≤ j) :
    embed_byte buf (8 * j) byte bit_depth = none := by
  unfold embed_byte
  have hr : List.range 8 = 0 :: [1, 2, 3, 4, 5, 6, 7] := rfl
  rw [hr, List.foldlM_cons]
  have hstep : embed_bit_step (8 * j) byte bit_depth buf 0 = none := by
    unfold embed_bit_step
    have h8 : (8 * j + 0) / 8 = j := by omega
    rw [h8, get_pixel_none buf j h]
  rw [hstep]
  rfl

theorem embed_bytes_none (bit_depth : Nat) :
    ∀ (bytes : List Nat) (start : Nat) (buf : RgbaImage),
      8 ∣ start →
      (∃ j, j < bytes.length ∧ buf.width * buf.height ≤ start / 8 + j) →
      embed_bytes buf start bytes bit_depth = none := by
  intro bytes
  induction bytes with
  | nil =>
    rintro start buf _ ⟨j, hj, _⟩
    exact absurd hj (by simp)
  | cons byte rest ih =>
    rintro start buf hdvd ⟨j, hj, hoob⟩
    obtain ⟨q, hq⟩ := hdvd
    unfold embed_bytes
    rcases Nat.eq_zero_or_pos j with rfl | hjpos
    · have hnone : embed_byte buf start byte bit_depth = none := by
        rw [hq]
        exact embed_byte_none buf q byte bit_depth (by omega)
      rw [hnone]
    · cases hstep : embed_byte buf start byte bit_depth with
      | none => rfl
      | some buf1 =>
        show embed_bytes buf1 (start + 8) rest bit_depth = none
        obtain ⟨hw, hh⟩ := embed_byte_dims buf buf1 start byte bit_depth hstep
        exact ih (start + 8) buf1 ⟨q + 1, by omega⟩
          ⟨j - 1, by simp at hj; omega, by rw [hw, hh]; omega⟩

theorem embed_bytes_some_bound (bit_depth : Nat) (bytes : List Nat)
    (start : Nat) (buf : RgbaImage) (buf' : RgbaImage)
    (hdvd : 8 ∣ start)
    (h : embed_bytes buf start bytes bit_depth = some buf') :
    ∀ j < bytes.length, start / 8 + j < buf.width * buf.height := by
  intro j hj
  by_contra hge
  rw [embed_bytes_none bit_depth bytes start buf hdvd ⟨j, hj, by omega⟩] at h
  cases h

/-- C10: the capacity check of `embed_in_image` reserves no room for the
4-byte length prefix: on any carrier with fewer than 4 pixels and a
capacity-conforming payload, the check passes but writing the length
prefix addresses a pixel row `y ≥ height`, so the (guarded) pixel access
fails — the model returns `none`, marking the `get_pixel` panic of the
source. -/
theorem c10_capacity_check_misses_prefix (img : RgbaImage) (data : List Nat)
    (bit_depth : Nat) (hbd1 : 1 ≤ bit_depth) (hbd4 : bit_depth ≤ 4)
    (hsmall : img.width * img.height < 4)
    (hcap : data.length ≤ img.width * img.height * bit_depth / 8) :
    embed_in_image img data bit_depth = none := by
  unfold embed_in_image
  have hwh : img.width * img.height ≤ 3 := by omega
  have hprod : img.width * img.height * bit_depth ≤ 12 := by
    calc img.width * img.height * bit_depth ≤ 3 * 4 := Nat.mul_le_mul hwh hbd4
      _ = 12 := by norm_num
  rw [if_neg (not_not.mpr ⟨hbd1, hbd4⟩),
    if_neg (by
      rw [Nat.mod_eq_of_lt
          (show img.width * img.height * bit_depth < 2 ^ 32 by omega),
        Nat.mod_eq_of_lt (show data.length < 2 ^ 32 by omega)]
      omega)]
  have hnone : embed_bytes img 0 (u32_be_bytes data.length) bit_depth = none := by
    apply embed_bytes_none bit_depth _ 0 img ⟨0, rfl⟩
    exact ⟨img.width * img.height, by simp [u32_be_bytes]; omega, by omega⟩
  simp only [hnone]

/-- Witness for C10: a 1×1 carrier at bit depth 4 has capacity 0, the
empty payload passes the capacity check, and embedding panics. -/
theorem c10_capacity_check_misses_prefix_witness :
    img_1x1.width * img_1x1.height < 4 ∧
    ([] : List Nat).length ≤ img_1x1.width * img_1x1.height * 4 / 8 ∧
    embed_in_image img_1x1 [] 4 = none :=
  ⟨by decide, by decide,
    c10_capacity_check_misses_prefix img_1x1 [] 4 (by decide) (by decide)
      (by decide) (by decide)⟩

theorem length_flatMap_const {α β : Type} (l : List α) (f : α → List β)
    (n : Nat) (h : ∀ a, (f a).length = n) :
    (l.flatMap f).length = l.length * n := by
  induction l with
  | nil => simp
  | cons a l ih =>
    rw [List.flatMap_cons, List.length_append, h, ih, List.length_cons]
    ring

theorem bytes_to_bits_length (bytes : List Nat) :
    (bytes_to_bits bytes).length = 8 * bytes.length := by
  unfold bytes_to_bits
  rw [length_flatMap_const _ _ 8
    (fun a => by rw [List.length_map, List.length_range])]
  ring

theorem jpg_blocks_length (x y : Nat) : (jpg_blocks x y).length = y * x := by
  unfold jpg_blocks
  rw [length_flatMap_const _ _ x
    (fun a => by rw [List.length_map, List.length_range])]
  rw [List.length_range]

theorem jpg_blocks_mem (x y : Nat) (b : Nat × Nat) (hb : b ∈ jpg_blocks x y) :
    b.1 < x ∧ b.2 < y := by
  unfold jpg_blocks at hb
  rcases List.mem_flatMap.1 hb with ⟨b_y, hby, hmem⟩
  rcases List.mem_map.1 hmem with ⟨b_x, hbx, rfl⟩
  exact ⟨List.mem_range.1 hbx, List.mem_range.1 hby⟩

theorem block_positions_length (b_x b_y : Nat) :
    (block_positions b_x b_y).length = 64 := by
  unfold block_positions
  rw [length_flatMap_const _ _ 8
    (fun a => by rw [List.length_map, List.length_range])]
  rfl

theorem block_positions_mem (b_x b_y : Nat) (p : Nat × Nat)
    (hp : p ∈ block_positions b_x b_y) :
    ∃ dy, dy < 8 ∧ ∃ dx, dx < 8 ∧ p = (b_y * 8 + dy, b_x * 8 + dx) := by
  unfold block_positions at hp
  rcases List.mem_flatMap.1 hp with ⟨dy, hdy, hmem⟩
  rcases List.mem_map.1 hmem with ⟨dx, hdx, rfl⟩
  exact ⟨dy, List.mem_range.1 hdy, dx, List.mem_range.1 hdx, rfl⟩

theorem stats_fold_count (width height channels : Nat) (pixels : List Nat) :
    ∀ (l : List (Nat × Nat)) (acc : Nat × Nat),
      (∀ p ∈ l, (p.1 < height ∧ p.2 < width) ∧
        (p.1 * width + p.2) * channels + 2 < pixels.length) →
      (l.foldl
        (fun (acc : Nat × Nat) (p : Nat × Nat) =>
          if p.1 < height ∧ p.2 < width then
            if (p.1 * width + p.2) * channels + 2 < pixels.length then
              (acc.1 + pixels.getD ((p.1 * width + p.2) * channels + 2) 0,
                acc.2 + 1)
            else acc
          else acc)
        acc).2 = acc.2 + l.length := by
  intro l
  induction l with
  | nil => intro acc _; simp
  | cons p l ih =>
    intro acc hall
    have hp := hall p (List.mem_cons_self _ _)
    rw [List.foldl_cons, if_pos hp.1, if_pos hp.2,
      ih _ (fun q hq => hall q (List.mem_cons_of_mem _ hq))]
    simp
    omega

theorem block_stats_count (width height channels : Nat) (pixels : List Nat)
    (b_x b_y : Nat) (hch : 3 ≤ channels) (hbx : b_x < width / 8)
    (hby : b_y < height / 8)
    (hplen : pixels.length = width * height * channels) :
    (block_blue_stats width height channels pixels b_x b_y).2 = 64 := by
  unfold block_blue_stats
  rw [stats_fold_count width height channels pixels (block_positions b_x b_y)
    (0, 0) ?_, block_positions_length]
  intro p hp
  rcases block_positions_mem b_x b_y p hp with ⟨dy, hdy, dx, hdx, rfl⟩
  have hw8 : width / 8 * 8 ≤ width := Nat.div_mul_le_self _ _
  have hh8 : height / 8 * 8 ≤ height := Nat.div_mul_le_self _ _
  have hy : b_y * 8 + dy < height := by omega
  have hx : b_x * 8 + dx < width := by omega
  refine ⟨⟨hy, hx⟩, ?_⟩
  rw [hplen]
  have hA : (b_y * 8 + dy) * width + (b_x * 8 + dx) + 1 ≤ height * width := by
    calc (b_y * 8 + dy) * width + (b_x * 8 + dx) + 1
        ≤ (b_y * 8 + dy) * width + width := by omega
      _ = (b_y * 8 + dy + 1) * width := by ring
      _ ≤ height * width := Nat.mul_le_mul_right _ hy
  calc ((b_y * 8 + dy) * width + (b_x * 8 + dx)) * channels + 2
      < ((b_y * 8 + dy) * width + (b_x * 8 + dx)) * channels + channels := by
        omega
    _ = ((b_y * 8 + dy) * width + (b_x * 8 + dx) + 1) * channels := by ring
    _ ≤ height * width * channels := Nat.mul_le_mul_right _ hA
    _ = width * height * channels := by ring

theorem adjust_fold_length (width height channels : Nat) (adjustment : Int) :
    ∀ (l : List (Nat × Nat)) (px0 : List Nat),
      (l.foldl
        (fun (px : List Nat) (p : Nat × Nat) =>
          if p.1 < height ∧ p.2 < width then
            if (p.1 * width + p.2) * channels + 2 < px.length then
              px.set ((p.1 * width + p.2) * channels + 2)
                (((px.getD ((p.1 * width + p.2) * channels + 2) 0 : Int) +
                  adjustment).toNat.min 255)
            else px
          else px)
        px0).length = px0.length := by
  intro l
  induction l with
  | nil => intro px0; rfl
  | cons p l ih =>
    intro px0
    rw [List.foldl_cons, ih]
    split
    · split
      · rw [List.length_set]
      · rfl
    · rfl

theorem adjust_block_length (width height channels : Nat) (pixels : List Nat)
    (b_x b_y : Nat) (adjustment : Int) :
    (adjust_block width height channels pixels b_x b_y adjustment).length =
      pixels.length := by
  unfold adjust_block
  exact adjust_fold_length width height channels adjustment _ pixels

theorem embed_block_step_state (width height channels : Nat)
    (bits : List Bool) (pixels : List Nat) (bi : Nat) (b : Nat × Nat)
    (hch : 3 ≤ channels) (hb1 : b.1 < width / 8) (hb2 : b.2 < height / 8)
    (hplen : pixels.length = width * height * channels) :
    (embed_block_step width height channels bits (pixels, bi) b).1.length =
      pixels.length ∧
    (embed_block_step width height channels bits (pixels, bi) b).2 =
      if bi < bits.length then bi + 1 else bi := by
  have hstats : (block_blue_stats width height channels pixels b.1 b.2).2 = 64 :=
    block_stats_count width height channels pixels b.1 b.2 hch hb1 hb2 hplen
  unfold embed_block_step
  by_cases hbi : bi < bits.length
  · rw [if_pos hbi]
    simp only [hstats, if_pos hbi]
    rw [if_pos (by omega : (64 : Nat) > 0)]
    refine ⟨?_, ?_⟩
    · split <;> split <;>
        first
          | rfl
          | exact adjust_block_length _ _ _ _ _ _ _
    · split <;> split <;> rfl
  · rw [if_neg hbi, if_neg hbi]
    exact ⟨rfl, rfl⟩

theorem jpg_loop_state (width height channels : Nat) (bits : List Bool)
    (hch : 3 ≤ channels) :
    ∀ (blocks : List (Nat × Nat)) (pixels : List Nat) (bi : Nat),
      (∀ b ∈ blocks, b.1 < width / 8 ∧ b.2 < height / 8) →
      pixels.length = width * height * channels →
      (blocks.foldl (embed_block_step width height channels bits)
        (pixels, bi)).1.length = pixels.length ∧
      (blocks.foldl (embed_block_step width height channels bits)
        (pixels, bi)).2 = min (bi + blocks.length) (max bi bits.length) := by
  intro blocks
  induction blocks with
  | nil =>
    intro pixels bi _ _
    exact ⟨rfl, by simp⟩
  | cons b blocks ih =>
    intro pixels bi hmem hplen
    have hb := hmem b (List.mem_cons_self _ _)
    obtain ⟨hslen, hsbi⟩ := embed_block_step_state width height channels bits
      pixels bi b hch hb.1 hb.2 hplen
    rw [List.foldl_cons]
    have hpair : embed_block_step width height channels bits (pixels, bi) b =
        ((embed_block_step width height channels bits (pixels, bi) b).1,
         (embed_block_step width height channels bits (pixels, bi) b).2) := rfl
    rw [hpair, hsbi]
    obtain ⟨ih1, ih2⟩ := ih
      (embed_block_step width height channels bits (pixels, bi) b).1
      (if bi < bits.length then bi + 1 else bi)
      (fun q hq => hmem q (List.mem_cons_of_mem _ hq))
      (by rw [hslen, hplen])
    refine ⟨by rw [ih1, hslen], ?_⟩
    rw [ih2]
    by_cases hbi : bi < bits.length
    · rw [if_pos hbi]
      simp only [List.length_cons]
      omega
    · rw [if_neg hbi]
      simp only [List.length_cons]
      omega

theorem embed_bytes_dims (bit_depth : Nat) :
    ∀ (bytes : List Nat) (start : Nat) (buf buf' : RgbaImage),
      embed_bytes buf start bytes bit_depth = some buf' →
      buf'.width = buf.width ∧ buf'.height = buf.height := by
  intro bytes
  induction bytes with
  | nil =>
    intro start buf buf' h
    cases h
    exact ⟨rfl, rfl⟩
  | cons byte rest ih =>
    intro start buf buf' h
    unfold embed_bytes at h
    cases hstep : embed_byte buf start byte bit_depth with
    | none => rw [hstep] at h; cases h
    | some buf1 =>
      rw [hstep] at h
      obtain ⟨hw1, hh1⟩ := embed_byte_dims buf buf1 start byte bit_depth hstep
      obtain ⟨hw2, hh2⟩ := ih (start + 8) buf1 buf' h
      exact ⟨hw2.trans hw1, hh2.trans hh1⟩

/-- C3 (amended): the image path rejects with `InvalidInput` exactly when
`payload_len` alone (not `payload_len + 4` — the check reserves no room
for the length prefix), taken as `u32`, exceeds the capacity computed in
wrapping `u32` arithmetic (`w*h*bit_depth` modulo `2^32`, then `/ 8`); the
JPEG path rejects with `InvalidInput` exactly when the
Reed-Solomon-protected length plus 4 exceeds `floor((w/8 * h/8)/8)` (a
fortiori whenever `payload_len + 4` does, since the protected frame is
longer than the payload); and neither path silently truncates: an image
embed can only succeed when every byte of the prefix and payload addressed
a pixel inside the carrier, and a JPEG embed that passes its capacity
check writes every bit of `length prefix ++ protected data` into the
block scan. -/
theorem c3_capacity_checks :
    (∀ (img : RgbaImage) (data : List Nat) (d : Nat), 1 ≤ d → d ≤ 4 →
      (embed_in_image img data d =
          some (.error (.InvalidInput "Data too large for image")) ↔
        img.width * img.height * d % 2 ^ 32 / 8 < data.length % 2 ^ 32)) ∧
    (∀ (width height channels : Nat) (pixels protected_data : List Nat),
      channels = 3 ∨ channels = 4 →
      (embed_in_jpg_core width height channels pixels protected_data =
          .error (.InvalidInput
            "Data is too large to be embedded with error correction") ↔
        width / 8 * (height / 8) / 8 < protected_data.length + 4)) ∧
    (∀ (img img' : RgbaImage) (data : List Nat) (d : Nat),
      embed_in_image img data d = some (.ok img') →
      4 + data.length ≤ img.width * img.height) ∧
    (∀ (width height channels : Nat) (pixels protected_data : List Nat),
      channels = 3 ∨ channels = 4 →
      pixels.length = width * height * channels →
      protected_data.length + 4 ≤ width / 8 * (height / 8) / 8 →
      embed_in_jpg_bits_written width height channels pixels
        (bytes_to_bits (u32_be_bytes protected_data.length ++ protected_data)) =
        8 * (protected_data.length + 4)) := by
  refine ⟨?_, ?_, ?_, ?_⟩
  · intro img data d h1 h4
    unfold embed_in_image
    rw [if_neg (not_not.mpr ⟨h1, h4⟩)]
    by_cases hc : data.length % 2 ^ 32 > img.width * img.height * d % 2 ^ 32 / 8
    · rw [if_pos hc]
      exact ⟨fun _ => hc, fun _ => rfl⟩
    · rw [if_neg hc]
      constructor
      · intro h
        exfalso
        cases h1' : embed_bytes img 0 (u32_be_bytes data.length) d with
        | none =>
          simp only [h1'] at h
          exact Option.noConfusion h
        | some buf =>
          cases h2' : embed_bytes buf 32 data d with
          | none =>
            simp only [h1', h2'] at h
            exact Option.noConfusion h
          | some buf2 =>
            simp only [h1', h2'] at h
            simp at h
      · intro hlen
        exact absurd hlen hc
  · intro w h c pixels pd hc
    unfold embed_in_jpg_core
    rw [if_neg (by
      rcases hc with rfl | rfl
      · exact fun hcon => hcon.1 rfl
      · exact fun hcon => hcon.2 rfl)]
    by_cases hcap : pd.length + 4 > w / 8 * (h / 8) / 8
    · rw [if_pos hcap]
      exact ⟨fun _ => hcap, fun _ => rfl⟩
    · rw [if_neg hcap]
      constructor
      · intro hok
        exact absurd hok (by simp)
      · intro hlen
        exact absurd hlen hcap
  · intro img img' data d hsuc
    unfold embed_in_image at hsuc
    by_cases hbd : 1 ≤ d ∧ d ≤ 4
    · rw [if_neg (not_not.mpr hbd)] at hsuc
      by_cases hcap : data.length % 2 ^ 32 >
        img.width * img.height * d % 2 ^ 32 / 8
      · rw [if_pos hcap] at hsuc
        simp at hsuc
      · rw [if_neg hcap] at hsuc
        cases h1' : embed_bytes img 0 (u32_be_bytes data.length) d with
        | none =>
          simp only [h1'] at hsuc
          exact Option.noConfusion hsuc
        | some buf =>
          cases h2' : embed_bytes buf 32 data d with
          | none =>
            simp only [h1', h2'] at hsuc
            exact Option.noConfusion hsuc
          | some buf2 =>
            have hb1 := embed_bytes_some_bound d (u32_be_bytes data.length) 0
              img buf ⟨0, rfl⟩ h1'
            have hb2 := embed_bytes_some_bound d data 32 buf buf2 ⟨4, rfl⟩ h2'
            obtain ⟨hw, hh⟩ := embed_bytes_dims d (u32_be_bytes data.length) 0
              img buf h1'
            have h3 : (3 : Nat) < (u32_be_bytes data.length).length := by
              simp [u32_be_bytes]
            have hend := hb1 3 h3
            rcases Nat.eq_zero_or_pos data.length with h0 | hpos
            · omega
            · have hlast := hb2 (data.length - 1) (by omega)
              rw [hw, hh] at hlast
              omega
    · rw [if_pos hbd] at hsuc
      simp at hsuc
  · intro w h c pixels pd hc hplen hfit
    have hch3 : 3 ≤ c := by rcases hc with rfl | rfl <;> omega
    unfold embed_in_jpg_bits_written
    obtain ⟨_, h2⟩ := jpg_loop_state w h c
      (bytes_to_bits (u32_be_bytes pd.length ++ pd)) hch3
      (jpg_blocks (w / 8) (h / 8)) pixels 0
      (fun b hb => jpg_blocks_mem _ _ b hb) hplen
    rw [h2, bytes_to_bits_length, jpg_blocks_length]
    have hlen4 : (u32_be_bytes pd.length ++ pd).length = 4 + pd.length := by
      simp [u32_be_bytes]
      omega
    rw [hlen4]
    have hcomm : h / 8 * (w / 8) = w / 8 * (h / 8) := Nat.mul_comm _ _
    omega

/-- C3 counterexample: on the 8×1 carrier at bit depth 1 the capacity is 1
byte, the 1-byte payload `[7]` has `payload_len + 4 = 5 > 1`, yet
`embed_in_image` returns success, not the `InvalidInput` error the claim
requires. -/
theorem c3_capacity_counterexample :
    ([7] : List Nat).length + 4 > img_8x1.width * img_8x1.height * 1 / 8 ∧
    is_error_result (embed_in_image img_8x1 [7] 1) = false :=
  ⟨by decide, rfl⟩

/-- Witness for C3 (amended): each conjunct evaluated at a concrete
input — an oversized image payload is rejected, an oversized JPEG payload
is rejected, a successful image embed fits prefix and payload in the
carrier, and a fitting JPEG embed writes all its bits. -/
theorem c3_capacity_checks_witness :
    embed_in_image img_8x5 (List.replicate 6 1) 1 =
      some (.error (.InvalidInput "Data too large for image")) ∧
    embed_in_jpg_core 16 16 3 [] [0] =
      .error (.InvalidInput
        "Data is too large to be embedded with error correction") ∧
    4 + ([] : List Nat).length ≤ img_5x1.width * img_5x1.height ∧
    embed_in_jpg_bits_written 64 32 3 (List.replicate 6144 100)
      (bytes_to_bits (u32_be_bytes ([] : List Nat).length ++ [])) =
      8 * (([] : List Nat).length + 4) :=
  ⟨(c3_capacity_checks.1 img_8x5 (List.replicate 6 1) 1 (by decide)
      (by decide)).mpr (by decide),
    (c3_capacity_checks.2.1 16 16 3 [] [0] (Or.inl rfl)).mpr (by decide),
    c3_capacity_checks.2.2.1 img_5x1 img_5x1 [] 4 rfl,
    c3_capacity_checks.2.2.2 64 32 3 (List.replicate 6144 100) []
      (Or.inl rfl) (by rw [List.length_replicate]) (by decide)⟩

end NHale
